import Mathlib

/-!
# modules/misc/svg.c : the SVG text renderer

A shallow embedding of `Render`, `svg_RenderPicture` and `RenderText` of
`src/modules/misc/svg.c`, and the properties of the pixel pass and of the
request builder proved about it.

Conventions of the embedding

* C `double` values are dyadic rationals `m * 2 ^ e`; every arithmetic
  operation is computed exactly and then rounded to 53 significant bits,
  to nearest, ties to even (IEEE 754 binary64, each operation rounded to
  `double`, as with `FLT_EVAL_METHOD` 0 and no fused multiply-add).  No value
  of `Render` leaves the normal exponent range, so the exponent is unbounded
  in the model.
* C `int` sizes, strides and indices are natural numbers, and a byte is a
  natural number; no index of `Render` comes near `2 ^ 31` for a raster that
  fits in memory.
* A plane of the region is the map from a byte offset (counted from the
  plane's base pointer) to the byte stored there.  `Render` is the list of
  the stores it performs, in program order, applied to that memory.
* The host, librsvg, gdk-pixbuf and the allocator are parameters (`Env`).
-/

namespace Svg

/-! ## Binary64 arithmetic -/

/-- The value `m * 2 ^ e`. -/
structure Dyadic where
  m : ℤ
  e : ℤ
deriving DecidableEq, Repr

namespace Dyadic

/-- The rational number a dyadic stands for. -/
def toRat (d : Dyadic) : ℚ := d.m * (2 : ℚ) ^ d.e

/-- Conversion of a C integer to `double` (exact for the 8-bit samples). -/
def ofInt (n : ℤ) : Dyadic := ⟨n, 0⟩

/-- Unary minus. -/
def neg (a : Dyadic) : Dyadic := ⟨-a.m, a.e⟩

/-- The exact product. -/
def mulExact (a b : Dyadic) : Dyadic := ⟨a.m * b.m, a.e + b.e⟩

/-- The exact sum, on the smaller of the two exponents. -/
def addExact (a b : Dyadic) : Dyadic :=
  let e := min a.e b.e
  ⟨a.m * 2 ^ (a.e - e).toNat + b.m * 2 ^ (b.e - e).toNat, e⟩

/-- Position of the leading bit of `n`, by halving at most `fuel` times. -/
def log2Fuel : ℕ → ℕ → ℕ
  | 0, _ => 0
  | fuel + 1, n => if n < 2 then 0 else log2Fuel fuel (n / 2) + 1

/-- Position of the leading bit: `2 ^ ilog2 n ≤ n < 2 ^ (ilog2 n + 1)` for `n ≠ 0`. -/
def ilog2 (n : ℕ) : ℕ := log2Fuel n n

/-- The integer nearest to `m / 2 ^ k`, ties to the even one. -/
def rne (m : ℤ) (k : ℕ) : ℤ :=
  if k = 0 then m else
  let q := m / 2 ^ k
  let r := m % 2 ^ k
  let h : ℤ := 2 ^ (k - 1)
  if r < h then q
  else if h < r then q + 1
  else if q % 2 = 0 then q else q + 1

/-- Rounding to 53 significant bits, to nearest, ties to even. -/
def round53 (d : Dyadic) : Dyadic :=
  if d.m.natAbs < 2 ^ 53 then d
  else
    let k := ilog2 d.m.natAbs - 52
    ⟨rne d.m k, d.e + k⟩

/-- The `double` product `a * b`. -/
def fmul (a b : Dyadic) : Dyadic := round53 (mulExact a b)

/-- The `double` sum `a + b`. -/
def fadd (a b : Dyadic) : Dyadic := round53 (addExact a b)

/-- The `double` difference `a - b`. -/
def fsub (a b : Dyadic) : Dyadic := round53 (addExact a (neg b))

/-- Truncation toward zero, the integer part used by a conversion to an
integer type. -/
def trunc (d : Dyadic) : ℤ :=
  if 0 ≤ d.e then d.m * 2 ^ d.e.toNat
  else if 0 ≤ d.m then d.m / 2 ^ (-d.e).toNat
  else -((-d.m) / 2 ^ (-d.e).toNat)

/-- Assignment of a `double` to a `uint8_t` lvalue: the integer part, kept
modulo 256.  The reduction only matters for an integer part outside
`0..255`, where C leaves the conversion undefined. -/
def toUint8 (d : Dyadic) : ℕ := (trunc d % 256).toNat

end Dyadic

open Dyadic

/-- The literal `.299`: the binary64 number nearest to 299/1000. -/
def c299 : Dyadic := ⟨5386305154335113, -54⟩
/-- The literal `.587`. -/
def c587 : Dyadic := ⟨5287225962532962, -53⟩
/-- The literal `.114`. -/
def c114 : Dyadic := ⟨8214565720323785, -56⟩
/-- The literal `.1687`. -/
def c1687 : Dyadic := ⟨6078058057099221, -55⟩
/-- The literal `.3313`. -/
def c3313 : Dyadic := ⟨5968170226191381, -54⟩
/-- The literal `.5`. -/
def c5 : Dyadic := ⟨1, -1⟩
/-- The literal `.4187`. -/
def c4187 : Dyadic := ⟨7542628655920107, -54⟩
/-- The literal `.0813`. -/
def c0813 : Dyadic := ⟨5858282395283541, -56⟩

/-- Line 327: `.299 * R( p_in ) + .587 * G( p_in ) + .114 * B( p_in )`. -/
def lumaExpr (r g b : ℕ) : Dyadic :=
  fadd (fadd (fmul c299 (ofInt r)) (fmul c587 (ofInt g))) (fmul c114 (ofInt b))

/-- Line 336: `-.1687 * R( p_in ) - .3313 * G( p_in ) + .5 * B( p_in ) + 128`. -/
def uExpr (r g b : ℕ) : Dyadic :=
  fadd (fadd (fsub (fmul (neg c1687) (ofInt r)) (fmul c3313 (ofInt g)))
    (fmul c5 (ofInt b))) (ofInt 128)

/-- Line 337: `.5 * R( p_in ) - .4187 * G( p_in ) - .0813 * B( p_in ) + 128`. -/
def vExpr (r g b : ℕ) : Dyadic :=
  fadd (fsub (fsub (fmul c5 (ofInt r)) (fmul c4187 (ofInt g)))
    (fmul c0813 (ofInt b))) (ofInt 128)

/-- The formula of line 320 over the rationals: `0.299 R + 0.587 G + 0.114 B`. -/
def lumaExact (r g b : ℕ) : ℚ := 299 / 1000 * r + 587 / 1000 * g + 114 / 1000 * b

/-- The formula of line 321 over the rationals. -/
def uExact (r g b : ℕ) : ℚ := -(1687 / 10000) * r - 3313 / 10000 * g + 1 / 2 * b + 128

/-- The formula of line 322 over the rationals. -/
def vExact (r g b : ℕ) : ℚ := 1 / 2 * r - 4187 / 10000 * g - 813 / 10000 * b + 128

/-! ## Data model -/

/-- A `GdkPixbuf`, as the `gdk_pixbuf_get_*` accessors of lines 234-235 and
287-290 show it: `pixels` is the packed byte buffer. -/
structure GdkPixbuf where
  width : ℕ
  height : ℕ
  rowstride : ℕ
  n_channels : ℕ
  has_alpha : Bool
  pixels : List ℕ
deriving DecidableEq, Repr

/-- The value of the pointer `p_string->p_rendition`: `NULL`, a pointer to a
pixbuf, or the bit pattern of a field nothing has written (`malloc` does not
clear it). -/
inductive Rendition where
  | null
  | wild
  | pixbuf (p : GdkPixbuf)
deriving DecidableEq, Repr

/-- The four planes of the `YUVA` picture. -/
inductive PlaneId where
  | Y
  | U
  | V
  | A
deriving DecidableEq, Repr

/-- The bytes of the planes: `mem pl o` is `p[pl].p_pixels[o]`. -/
abbrev PlaneMem := PlaneId → ℕ → ℕ

/-- One byte store `p[plane].p_pixels[offset] = value`. -/
structure Store where
  plane : PlaneId
  offset : ℕ
  value : ℕ
deriving DecidableEq, Repr

/-- The part of `subpicture_region_t` that `Render` uses: `fmt.i_height`, the
position, the pitches of the Y and U planes and the plane bytes. -/
structure subpicture_region_t where
  fmt_i_height : ℕ
  i_x : ℤ
  i_y : ℤ
  Y_PITCH : ℕ
  U_PITCH : ℕ
  Y_PIXEL_PITCH : ℕ
  U_PIXEL_PITCH : ℕ
  p_pixels : PlaneMem

/-- The fields of `subpicture_t` set by `RenderText` and `Render`. -/
structure subpicture_t where
  i_start : ℤ
  i_stop : ℤ
  b_ephemer : Bool
  b_absolute : Bool
  p_region : Option subpicture_region_t

/-- The structure `subpicture_data_t` (lines 66-75); `psz_text` holds the
characters before the terminating NUL. -/
structure subpicture_data_t where
  i_width : ℕ
  i_height : ℕ
  psz_text : List Char
  p_rendition : Rendition

/-- The structure `filter_sys_t` (lines 90-98). -/
structure filter_sys_t where
  psz_template : List Char
  i_width : ℕ
  i_height : ℕ

/-- A `block_t`: `p_buffer` is `none` for a null pointer, else the bytes it
points to. -/
structure block_t where
  p_buffer : Option (List Char)
  i_pts : ℤ
  i_length : ℤ

/-- The calls `svg.c` makes to its collaborators. -/
inductive Event where
  | msg_Err (text : String)
  | sub_buffer_del
  | rsvg_handle_write (psz_text : List Char)
  | rsvg_handle_get_pixbuf
  | gdk_pixbuf_get_width (p : Rendition)
  | gdk_pixbuf_get_height (p : Rendition)
  | gdk_pixbuf_get_pixels (p : Rendition)
  | gdk_pixbuf_get_rowstride (p : Rendition)
  | gdk_pixbuf_get_n_channels (p : Rendition)
  | gdk_pixbuf_get_has_alpha (p : Rendition)
  | create_region (i_width i_height : ℕ)
  | FreeString
  | block_Release
deriving DecidableEq, Repr

/-- The collaborators of the module: the host's allocators, the C allocator,
librsvg and gdk-pixbuf.
* `pf_sub_buffer_new`: the subpicture the host hands out, `none` when it fails;
* `malloc_data`, `strdup_text`, `malloc_text`: whether the allocations of
  lines 405, 417 and 432 succeed;
* `uninit_is_null`: whether the `p_rendition` of the freshly allocated
  structure, which nothing has written, compares equal to `NULL`;
* `rsvg_write_error`: whether `rsvg_handle_write` sets `error` for a text;
* `rsvg_pixbuf`: the result of `rsvg_handle_get_pixbuf` for a text and the
  size answered by `svg_SizeCallback`, `none` for `NULL`;
* `pf_create_region`: the region for a `YUVA` format of a width and height. -/
structure Env where
  pf_sub_buffer_new : Option subpicture_t
  malloc_data : Bool
  strdup_text : Bool
  malloc_text : Bool
  uninit_is_null : Bool
  rsvg_write_error : List Char → Bool
  rsvg_pixbuf : List Char → ℕ → ℕ → Option GdkPixbuf
  pf_create_region : ℕ → ℕ → Option subpicture_region_t

/-- The never-written `p_rendition` of a fresh `subpicture_data_t`: `NULL` or
some other bit pattern, never a pixbuf the code may use. -/
def Env.uninit (env : Env) : Rendition :=
  if env.uninit_is_null then Rendition.null else Rendition.wild

/-! ## Render -/

/-- The effect of one store on the plane bytes. -/
def store (mem : PlaneMem) (s : Store) : PlaneMem :=
  fun pl o => if pl = s.plane ∧ o = s.offset then s.value else mem pl o

/-- The effect of a list of stores, first to last. -/
def applyStores (mem : PlaneMem) (l : List Store) : PlaneMem := l.foldl store mem

/-- The call `memset( p, c, n )` on the base pointer of a plane. -/
def memset (plane : PlaneId) (c n : ℕ) : List Store :=
  (List.range n).map fun o => ⟨plane, o, c⟩

/-- Line 300: `#define INDEX_IN( x, y ) ( y * rowstride_in + x * channels_in )`. -/
def INDEX_IN (rowstride_in channels_in x y : ℕ) : ℕ := y * rowstride_in + x * channels_in

/-- Line 301: `INDEX_OUT( x, y )`, with the pixel pitch of the Y plane. -/
def INDEX_OUT (i_pitch pixel_pitch x y : ℕ) : ℕ := y * i_pitch + x * pixel_pitch

/-- Line 302: `UV_INDEX_OUT( x, y )`, with the pixel pitch of the U plane. -/
def UV_INDEX_OUT (i_u_pitch pixel_pitch x y : ℕ) : ℕ :=
  (y >>> 1) * i_u_pitch + (x >>> 1) * pixel_pitch

/-- The byte `pixels_in[i]`. -/
def byteAt (pb : GdkPixbuf) (i : ℕ) : ℕ := pb.pixels.getD i 0

/-- The bytes R, G, B of the pixel `(x, y)`, as line 312 and the macros of
lines 314-317 read them. -/
def rgbAt (pb : GdkPixbuf) (x y : ℕ) : ℕ × ℕ × ℕ :=
  let p_in := INDEX_IN pb.rowstride pb.n_channels x y
  (byteAt pb p_in, byteAt pb (p_in + 1), byteAt pb (p_in + 2))

/-- The body of the inner loop (lines 308-339) for the pixel `(x, y)`. -/
def pixelStores (pb : GdkPixbuf) (rg : subpicture_region_t) (x y : ℕ) : List Store :=
  let p_in := INDEX_IN pb.rowstride pb.n_channels x y
  if pb.has_alpha then
    let i_out := INDEX_OUT rg.Y_PITCH rg.Y_PIXEL_PITCH x y
    [⟨PlaneId.Y, i_out,
        toUint8 (lumaExpr (byteAt pb p_in) (byteAt pb (p_in + 1)) (byteAt pb (p_in + 2)))⟩,
     ⟨PlaneId.A, i_out, byteAt pb (p_in + 3)⟩] ++
    (if x % 2 = 0 ∧ y % 2 = 0 then
      let i_uv_out := UV_INDEX_OUT rg.U_PITCH rg.U_PIXEL_PITCH x y
      [⟨PlaneId.U, i_uv_out,
          toUint8 (uExpr (byteAt pb p_in) (byteAt pb (p_in + 1)) (byteAt pb (p_in + 2)))⟩,
       ⟨PlaneId.V, i_uv_out,
          toUint8 (vExpr (byteAt pb p_in) (byteAt pb (p_in + 1)) (byteAt pb (p_in + 2)))⟩]
    else [])
  else []

/-- The two nested loops of lines 304-341. -/
def loopStores (pb : GdkPixbuf) (rg : subpicture_region_t) : List Store :=
  (List.range pb.height).flatMap fun y =>
    (List.range pb.width).flatMap fun x => pixelStores pb rg x y

/-- The three `memset` calls of lines 261-263. -/
def initStores (rg : subpicture_region_t) : List Store :=
  memset PlaneId.Y 0x00 (rg.Y_PITCH * rg.fmt_i_height) ++
  memset PlaneId.U 0x80 (rg.U_PITCH * rg.fmt_i_height) ++
  memset PlaneId.V 0x80 (rg.U_PITCH * rg.fmt_i_height)

/-- Every store of `Render` into the region, in program order. -/
def renderStores (pb : GdkPixbuf) (rg : subpicture_region_t) : List Store :=
  initStores rg ++ loopStores pb rg

/-- Lines 251-341 of `Render`, once the region is there. -/
def renderRegion (pb : GdkPixbuf) (rg : subpicture_region_t) : subpicture_region_t :=
  { rg with i_x := 0, i_y := 0, p_pixels := applyStores rg.p_pixels (renderStores pb rg) }

/-- The function `svg_RenderPicture` (lines 353-377): the new content of
`*p_string` and the calls made. -/
def svg_RenderPicture (env : Env) (p_string : subpicture_data_t) :
    subpicture_data_t × List Event :=
  if env.rsvg_write_error p_string.psz_text then
    (p_string, [Event.rsvg_handle_write p_string.psz_text,
                Event.msg_Err "Error in handle_write"])
  else
    ({ p_string with
        p_rendition :=
          match env.rsvg_pixbuf p_string.psz_text p_string.i_width p_string.i_height with
          | some pb => Rendition.pixbuf pb
          | none => Rendition.null },
     [Event.rsvg_handle_write p_string.psz_text, Event.rsvg_handle_get_pixbuf])

/-- The function `Render` (lines 218-342): the subpicture, the private data,
the calls made, and whether the run is undefined.  Lines 234-235 hand
`p_string->p_rendition` to gdk-pixbuf whatever it holds; for a pointer that is
`NULL` or was never written C gives the calls, and everything after them, no
meaning: the model records the two calls, sets the flag and follows the code no
further. -/
def Render (env : Env) (p_spu : subpicture_t) (p_string : subpicture_data_t) :
    subpicture_t × subpicture_data_t × List Event × Bool :=
  let r := if p_string.p_rendition = Rendition.null then svg_RenderPicture env p_string
           else (p_string, [])
  let p_string := r.1
  match p_string.p_rendition with
  | Rendition.pixbuf pb =>
    let ev := r.2 ++ [Event.gdk_pixbuf_get_width p_string.p_rendition,
                      Event.gdk_pixbuf_get_height p_string.p_rendition,
                      Event.create_region pb.width pb.height]
    match env.pf_create_region pb.width pb.height with
    | none => ({ p_spu with p_region := none }, p_string,
               ev ++ [Event.msg_Err "cannot allocate SPU region"], false)
    | some rg =>
      ({ p_spu with p_region := some (renderRegion pb rg) }, p_string,
       ev ++ [Event.gdk_pixbuf_get_pixels p_string.p_rendition,
              Event.gdk_pixbuf_get_rowstride p_string.p_rendition,
              Event.gdk_pixbuf_get_n_channels p_string.p_rendition,
              Event.gdk_pixbuf_get_has_alpha p_string.p_rendition], false)
  | p =>
    (p_spu, p_string,
     r.2 ++ [Event.gdk_pixbuf_get_width p, Event.gdk_pixbuf_get_height p], true)

/-! ## RenderText -/

/-- The C string stored in a buffer: the bytes before the first NUL. -/
def cstring (buf : List Char) : List Char := buf.takeWhile fun c => c ≠ Char.ofNat 0

/-- The call `strstr( haystack, needle )`: the tail of `haystack` that starts
at the first occurrence of `needle`, `none` for `NULL`. -/
def strstr : List Char → List Char → Option (List Char)
  | [], needle => if needle = [] then some [] else none
  | c :: hay, needle =>
    if needle.isPrefixOf (c :: hay) then some (c :: hay) else strstr hay needle

/-- Expansion of a `printf` format whose only argument is a string: `%s`
takes the argument, `%%` is a percent sign, any other character is copied.
The result is `none` where C leaves the call undefined or where the
directive is not modelled (a second `%s`, any other conversion). -/
def vformat : List Char → Option (List Char) → Option (List Char)
  | [], _ => some []
  | '%' :: 's' :: rest, some arg => (vformat rest none).map fun t => arg ++ t
  | '%' :: 's' :: _, none => none
  | '%' :: '%' :: rest, arg => (vformat rest arg).map fun t => '%' :: t
  | '%' :: _, _ => none
  | c :: rest, arg => (vformat rest arg).map fun t => c :: t

/-- The call `snprintf( buf, size, format, arg )` on a zeroed buffer: the C
string left in `buf`, at most `size - 1` characters of the expansion. -/
def snprintf (size : ℕ) (format arg : List Char) : Option (List Char) :=
  (vformat format (some arg)).map fun t => t.take (size - 1)

/-- The default template of lines 192-195. -/
def defaultTemplate : List Char :=
  ("<?xml version='1.0' encoding='UTF-8' standalone='no'?> " ++
   "<svg version='1' preserveAspectRatio='xMinYMin meet' viewBox='0 0 800 600'> " ++
   "  <text x='10' y='560' fill='white' font-size='32'  " ++
   "        font-family='sans-serif'>%s</text></svg>").toList

/-- The result of `RenderText`: the pointer returned (`none` for `NULL`), the
calls made, and whether the run is undefined because `Render` handed gdk-pixbuf
a pointer that is no pixbuf.  In such a run `ret` and `log` show the path the
code takes if those calls come back: C promises nothing about it. -/
structure Result where
  ret : Option subpicture_t
  log : List Event
  undefined_read : Bool

/-- Lines 443-456: the rendering of a built `psz_text`. -/
def renderBuilt (env : Env) (p_sys : filter_sys_t) (p_subpic : subpicture_t)
    (psz_text : List Char) : Result :=
  let p_string : subpicture_data_t :=
    { i_width := p_sys.i_width, i_height := p_sys.i_height,
      psz_text := psz_text, p_rendition := env.uninit }
  let r1 := svg_RenderPicture env p_string
  let r2 := Render env p_subpic r1.1
  { ret := some r2.1,
    log := r1.2 ++ r2.2.2.1 ++ [Event.FreeString, Event.block_Release],
    undefined_read := r2.2.2.2 }

/-- The function `RenderText` (lines 380-457).  The outer `none` stands for
an execution C leaves undefined before any rendering (the `snprintf` call
on a template that is not a format for one string). -/
def RenderText (env : Env) (p_sys : filter_sys_t) (p_block : Option block_t) :
    Option Result :=
  match p_block with
  | none => some ⟨none, [], false⟩
  | some blk =>
    match blk.p_buffer with
    | none => some ⟨none, [], false⟩
    | some buf =>
      let psz_string := cstring buf
      if psz_string = [] then some ⟨none, [], false⟩
      else
        match env.pf_sub_buffer_new with
        | none => some ⟨none, [], false⟩
        | some spu =>
          let p_subpic : subpicture_t :=
            { spu with i_start := blk.i_pts, i_stop := blk.i_pts + blk.i_length,
                       b_ephemer := true, b_absolute := false }
          if !env.malloc_data then
            some ⟨none, [Event.msg_Err "Out of memory", Event.sub_buffer_del], false⟩
          else if (strstr psz_string "<svg".toList).isSome then
            if !env.strdup_text then
              some ⟨none, [Event.msg_Err "Out of memory", Event.sub_buffer_del], false⟩
            else some (renderBuilt env p_sys p_subpic psz_string)
          else
            if !env.malloc_text then
              some ⟨none, [Event.msg_Err "Out of memory", Event.sub_buffer_del], false⟩
            else
              let length := psz_string.length + p_sys.psz_template.length + 42
              (snprintf length p_sys.psz_template psz_string).map fun psz_text =>
                renderBuilt env p_sys p_subpic psz_text

/-- The texts handed to `rsvg_handle_write`, in the order of the calls. -/
def rsvgInputs : List Event → List (List Char)
  | [] => []
  | Event.rsvg_handle_write t :: l => t :: rsvgInputs l
  | _ :: l => rsvgInputs l

/-- The template has exactly one substitution point `%s` and no other `%`. -/
def SingleSlot (template pre post : List Char) : Prop :=
  template = pre ++ "%s".toList ++ post ∧ '%' ∉ pre ∧ '%' ∉ post

/-! ## Concrete inputs -/

/-- The 2x2 RGBA raster whose four pixels are R=255, G=0, B=0, A=255. -/
def redSquare : GdkPixbuf :=
  { width := 2, height := 2, rowstride := 8, n_channels := 4, has_alpha := true,
    pixels := [255, 0, 0, 255, 255, 0, 0, 255, 255, 0, 0, 255, 255, 0, 0, 255] }

/-- The red square as an RGB raster without alpha channel. -/
def redSquareRGB : GdkPixbuf :=
  { width := 2, height := 2, rowstride := 6, n_channels := 3, has_alpha := false,
    pixels := [255, 0, 0, 255, 0, 0, 255, 0, 0, 255, 0, 0] }

/-- A region for a 2x2 picture: luma pitch 2, chroma pitch 1, pixel pitches 1,
every byte 7 before `Render`. -/
def region2x2 : subpicture_region_t :=
  { fmt_i_height := 2, i_x := 0, i_y := 0, Y_PITCH := 2, U_PITCH := 1,
    Y_PIXEL_PITCH := 1, U_PIXEL_PITCH := 1, p_pixels := fun _ _ => 7 }

/-- A subpicture as the host hands it out. -/
def blankSubpicture : subpicture_t :=
  { i_start := 0, i_stop := 0, b_ephemer := false, b_absolute := true, p_region := none }

/-- An environment in which every allocation succeeds, librsvg renders every
text to `pb` and the host answers every region request with `region2x2`. -/
def envOf (pb : GdkPixbuf) : Env :=
  { pf_sub_buffer_new := some blankSubpicture, malloc_data := true, strdup_text := true,
    malloc_text := true, uninit_is_null := false,
    rsvg_write_error := fun _ => false, rsvg_pixbuf := fun _ _ _ => some pb,
    pf_create_region := fun _ _ => some region2x2 }

/-- Private data whose rendition is `pb`. -/
def dataOf (pb : GdkPixbuf) : subpicture_data_t :=
  { i_width := 800, i_height := 600, psz_text := "<svg/>".toList,
    p_rendition := Rendition.pixbuf pb }

/-- The filter data with the default template and an 800x600 output. -/
def sysDefault : filter_sys_t :=
  { psz_template := defaultTemplate, i_width := 800, i_height := 600 }

/-- A block whose payload is the text `Hello`. -/
def blockHello : block_t := { p_buffer := some "Hello".toList, i_pts := 0, i_length := 1000 }

/-- A block whose payload is an SVG document. -/
def blockSvg : block_t :=
  { p_buffer := some "<svg version='1'></svg>".toList, i_pts := 0, i_length := 1000 }

/-- An environment in which `rsvg_handle_write` reports an error for every text
and the fresh private data holds a null `p_rendition`. -/
def envWriteError : Env :=
  { envOf redSquare with rsvg_write_error := fun _ => true, uninit_is_null := true }

/-- An environment in which librsvg accepts every text and yields no pixbuf. -/
def envNoPixbuf : Env := { envOf redSquare with rsvg_pixbuf := fun _ _ _ => none }

/-- The default template up to its `%s`. -/
def defaultPre : List Char :=
  ("<?xml version='1.0' encoding='UTF-8' standalone='no'?> " ++
   "<svg version='1' preserveAspectRatio='xMinYMin meet' viewBox='0 0 800 600'> " ++
   "  <text x='10' y='560' fill='white' font-size='32'  " ++
   "        font-family='sans-serif'>").toList

/-- The default template after its `%s`. -/
def defaultPost : List Char := "</text></svg>".toList

/-- The 1x1 RGBA raster whose pixel is R=0, G=72, B=24, A=255. -/
def pixel_0_72_24 : GdkPixbuf :=
  { width := 1, height := 1, rowstride := 4, n_channels := 4, has_alpha := true,
    pixels := [0, 72, 24, 255] }

/-- The 1x1 RGBA raster whose pixel is R=0, G=164, B=164, A=255. -/
def pixel_0_164_164 : GdkPixbuf :=
  { width := 1, height := 1, rowstride := 4, n_channels := 4, has_alpha := true,
    pixels := [0, 164, 164, 255] }

/-- A region for a 1x1 picture: pitches and pixel pitches 1, every byte 7
before `Render`. -/
def region1x1 : subpicture_region_t :=
  { fmt_i_height := 1, i_x := 0, i_y := 0, Y_PITCH := 1, U_PITCH := 1,
    Y_PIXEL_PITCH := 1, U_PIXEL_PITCH := 1, p_pixels := fun _ _ => 7 }

/-- The environment `envOf pb` with a host that answers every region request
with `region1x1`. -/
def envOf1x1 (pb : GdkPixbuf) : Env :=
  { envOf pb with pf_create_region := fun _ _ => some region1x1 }

theorem applyStores_append (m : PlaneMem) (l₁ l₂ : List Store) :
    applyStores m (l₁ ++ l₂) = applyStores (applyStores m l₁) l₂ := by
  simp [applyStores, List.foldl_append]

theorem applyStores_cons (m : PlaneMem) (s : Store) (l : List Store) :
    applyStores m (s :: l) = applyStores (store m s) l := rfl

/-- A location no store of the list targets keeps its byte. -/
theorem applyStores_untouched (l : List Store) (m : PlaneMem) (pl : PlaneId) (o : ℕ)
    (h : ∀ s ∈ l, ¬ (s.plane = pl ∧ s.offset = o)) :
    applyStores m l pl o = m pl o := by
  induction l generalizing m with
  | nil => rfl
  | cons s l ih =>
    rw [applyStores_cons, ih _ (fun t ht => h t (List.mem_cons_of_mem _ ht))]
    have hs := h s (List.mem_cons_self _ _)
    simp only [store]
    rw [if_neg]
    rintro ⟨h1, h2⟩
    exact hs ⟨h1.symm, h2.symm⟩

/-- A location that is targeted, and only by stores of one value, ends with
that value. -/
theorem applyStores_agree (l : List Store) (m : PlaneMem) (pl : PlaneId) (o v : ℕ)
    (hex : ∃ s ∈ l, s.plane = pl ∧ s.offset = o)
    (hall : ∀ s ∈ l, s.plane = pl → s.offset = o → s.value = v) :
    applyStores m l pl o = v := by
  induction l generalizing m with
  | nil => simp at hex
  | cons s l ih =>
    rw [applyStores_cons]
    by_cases hl : ∃ t ∈ l, t.plane = pl ∧ t.offset = o
    · exact ih _ hl (fun t ht => hall t (List.mem_cons_of_mem _ ht))
    · have hno : ∀ t ∈ l, ¬ (t.plane = pl ∧ t.offset = o) := fun t ht hc => hl ⟨t, ht, hc⟩
      rw [applyStores_untouched l _ pl o hno]
      obtain ⟨t, ht, htp, hto⟩ := hex
      rcases List.mem_cons.1 ht with rfl | ht'
      · simp only [store]
        rw [if_pos ⟨htp.symm, hto.symm⟩]
        exact hall t (List.mem_cons_self _ _) htp hto
      · exact absurd ⟨htp, hto⟩ (hno t ht')

theorem mem_memset (s : Store) (pl : PlaneId) (c n : ℕ) :
    s ∈ memset pl c n ↔ s.plane = pl ∧ s.offset < n ∧ s.value = c := by
  simp only [memset, List.mem_map, List.mem_range]
  constructor
  · rintro ⟨o, ho, rfl⟩
    exact ⟨rfl, ho, rfl⟩
  · rintro ⟨h1, h2, h3⟩
    exact ⟨s.offset, h2, by cases s; simp_all⟩

theorem mem_initStores (s : Store) (rg : subpicture_region_t) :
    s ∈ initStores rg ↔
      (s.plane = PlaneId.Y ∧ s.offset < rg.Y_PITCH * rg.fmt_i_height ∧ s.value = 0x00) ∨
      (s.plane = PlaneId.U ∧ s.offset < rg.U_PITCH * rg.fmt_i_height ∧ s.value = 0x80) ∨
      (s.plane = PlaneId.V ∧ s.offset < rg.U_PITCH * rg.fmt_i_height ∧ s.value = 0x80) := by
  simp only [initStores, List.mem_append, mem_memset, or_assoc]

theorem mem_loopStores (s : Store) (pb : GdkPixbuf) (rg : subpicture_region_t) :
    s ∈ loopStores pb rg ↔ ∃ y < pb.height, ∃ x < pb.width, s ∈ pixelStores pb rg x y := by
  simp only [loopStores, List.mem_flatMap, List.mem_range]

/-- The stores of one pixel of a raster with an alpha channel. -/
theorem mem_pixelStores (s : Store) (pb : GdkPixbuf) (rg : subpicture_region_t) (x y : ℕ)
    (halpha : pb.has_alpha = true) :
    s ∈ pixelStores pb rg x y ↔
      s = ⟨PlaneId.Y, INDEX_OUT rg.Y_PITCH rg.Y_PIXEL_PITCH x y,
            toUint8 (lumaExpr (rgbAt pb x y).1 (rgbAt pb x y).2.1 (rgbAt pb x y).2.2)⟩ ∨
      s = ⟨PlaneId.A, INDEX_OUT rg.Y_PITCH rg.Y_PIXEL_PITCH x y,
            byteAt pb (INDEX_IN pb.rowstride pb.n_channels x y + 3)⟩ ∨
      ((x % 2 = 0 ∧ y % 2 = 0) ∧
        (s = ⟨PlaneId.U, UV_INDEX_OUT rg.U_PITCH rg.U_PIXEL_PITCH x y,
              toUint8 (uExpr (rgbAt pb x y).1 (rgbAt pb x y).2.1 (rgbAt pb x y).2.2)⟩ ∨
         s = ⟨PlaneId.V, UV_INDEX_OUT rg.U_PITCH rg.U_PIXEL_PITCH x y,
              toUint8 (vExpr (rgbAt pb x y).1 (rgbAt pb x y).2.1 (rgbAt pb x y).2.2)⟩)) := by
  unfold pixelStores rgbAt
  simp only [halpha, if_true]
  by_cases h : x % 2 = 0 ∧ y % 2 = 0
  · simp [h]
  · simp [h]

/-- A pixel with an odd coordinate stores nothing in a chroma plane. -/
theorem pixelStores_odd (pb : GdkPixbuf) (rg : subpicture_region_t) (x y : ℕ)
    (hodd : ¬ (x % 2 = 0 ∧ y % 2 = 0)) (s : Store) (hs : s ∈ pixelStores pb rg x y) :
    s.plane ≠ PlaneId.U ∧ s.plane ≠ PlaneId.V := by
  unfold pixelStores at hs
  by_cases ha : pb.has_alpha = true
  · simp only [ha, if_true, if_neg hodd, List.append_nil, List.mem_cons,
      List.mem_singleton, List.not_mem_nil, or_false] at hs
    rcases hs with rfl | rfl <;> simp
  · simp [ha] at hs

/-- Two pixels of the raster with the same output index are the same pixel. -/
theorem index_out_inj (pitch pp w x y x' y' : ℕ) (hpp : 1 ≤ pp) (hpitch : w * pp ≤ pitch)
    (hx : x < w) (hx' : x' < w) (h : y * pitch + x * pp = y' * pitch + x' * pp) :
    x = x' ∧ y = y' := by
  have h1 : (x + 1) * pp ≤ w * pp := Nat.mul_le_mul_right _ hx
  have h2 : (x' + 1) * pp ≤ w * pp := Nat.mul_le_mul_right _ hx'
  rw [Nat.add_mul, Nat.one_mul] at h1 h2
  rcases Nat.lt_trichotomy y y' with hlt | heq | hgt
  · have h3 : (y + 1) * pitch ≤ y' * pitch := Nat.mul_le_mul_right _ hlt
    rw [Nat.add_mul, Nat.one_mul] at h3
    omega
  · subst heq
    have h3 : x * pp = x' * pp := by omega
    exact ⟨Nat.eq_of_mul_eq_mul_right (by omega) h3, rfl⟩
  · have h3 : (y' + 1) * pitch ≤ y * pitch := Nat.mul_le_mul_right _ hgt
    rw [Nat.add_mul, Nat.one_mul] at h3
    omega

/-- Two even pixels of the raster with the same chroma index are the same pixel. -/
theorem uv_index_out_inj (pitch pp w x y x' y' : ℕ) (hpp : 1 ≤ pp)
    (hpitch : (w + 1) / 2 * pp ≤ pitch) (hx : x < w) (hx' : x' < w)
    (ex : x % 2 = 0) (ey : y % 2 = 0) (ex' : x' % 2 = 0) (ey' : y' % 2 = 0)
    (h : UV_INDEX_OUT pitch pp x y = UV_INDEX_OUT pitch pp x' y') :
    x = x' ∧ y = y' := by
  simp only [UV_INDEX_OUT, Nat.shiftRight_eq_div_pow, pow_one] at h
  have := index_out_inj pitch pp ((w + 1) / 2) (x / 2) (y / 2) (x' / 2) (y' / 2) hpp hpitch
    (by omega) (by omega) h
  omega

theorem uv_index_out_origin (pitch pp : ℕ) : UV_INDEX_OUT pitch pp 0 0 = 0 := by
  simp [UV_INDEX_OUT]

/-- A byte of a pixel lies inside the buffer of a well-formed RGBA raster. -/
theorem byteAt_inbounds (pb : GdkPixbuf) (hch : pb.n_channels = 4)
    (hrow : 4 * pb.width ≤ pb.rowstride) (hlen : pb.height * pb.rowstride ≤ pb.pixels.length)
    (x y c : ℕ) (hx : x < pb.width) (hy : y < pb.height) (hc : c < 4) :
    pb.pixels[y * pb.rowstride + x * pb.n_channels + c]? =
      some (byteAt pb (INDEX_IN pb.rowstride pb.n_channels x y + c)) := by
  have h1 : (y + 1) * pb.rowstride ≤ pb.height * pb.rowstride := Nat.mul_le_mul_right _ hy
  rw [Nat.add_mul, Nat.one_mul] at h1
  have h2 : y * pb.rowstride + x * pb.n_channels + c < pb.pixels.length := by
    rw [hch]; omega
  rw [List.getElem?_eq_getElem h2, byteAt, INDEX_IN, List.getD_eq_getElem _ _ h2]

theorem Render_region (env : Env) (p_spu : subpicture_t) (p_string : subpicture_data_t)
    (pb : GdkPixbuf) (rg : subpicture_region_t)
    (hrend : p_string.p_rendition = Rendition.pixbuf pb)
    (hreg : env.pf_create_region pb.width pb.height = some rg) :
    (Render env p_spu p_string).1.p_region = some (renderRegion pb rg) := by
  simp [Render, hrend, hreg]

/-- The luma byte of a pixel after the stores of `Render`. -/
theorem renderStores_luma (pb : GdkPixbuf) (rg : subpicture_region_t) (m : PlaneMem)
    (halpha : pb.has_alpha = true)
    (hpp : 1 ≤ rg.Y_PIXEL_PITCH) (hpitch : pb.width * rg.Y_PIXEL_PITCH ≤ rg.Y_PITCH)
    (x y : ℕ) (hx : x < pb.width) (hy : y < pb.height) :
    applyStores m (renderStores pb rg) PlaneId.Y (INDEX_OUT rg.Y_PITCH rg.Y_PIXEL_PITCH x y) =
      toUint8 (lumaExpr (rgbAt pb x y).1 (rgbAt pb x y).2.1 (rgbAt pb x y).2.2) := by
  rw [renderStores, applyStores_append]
  apply applyStores_agree
  · exact ⟨_, (mem_loopStores _ pb rg).2 ⟨y, hy, x, hx,
      (mem_pixelStores _ pb rg x y halpha).2 (Or.inl rfl)⟩, rfl, rfl⟩
  · intro s hs hp ho
    obtain ⟨y', _, x', hx', hs'⟩ := (mem_loopStores s pb rg).1 hs
    rcases (mem_pixelStores s pb rg x' y' halpha).1 hs' with rfl | rfl | ⟨_, rfl | rfl⟩
    · obtain ⟨rfl, rfl⟩ := index_out_inj _ _ _ _ _ _ _ hpp hpitch hx' hx ho
      rfl
    · cases hp
    · cases hp
    · cases hp

/-- The alpha byte of a pixel after the stores of `Render`. -/
theorem renderStores_alpha (pb : GdkPixbuf) (rg : subpicture_region_t) (m : PlaneMem)
    (halpha : pb.has_alpha = true)
    (hpp : 1 ≤ rg.Y_PIXEL_PITCH) (hpitch : pb.width * rg.Y_PIXEL_PITCH ≤ rg.Y_PITCH)
    (x y : ℕ) (hx : x < pb.width) (hy : y < pb.height) :
    applyStores m (renderStores pb rg) PlaneId.A (INDEX_OUT rg.Y_PITCH rg.Y_PIXEL_PITCH x y) =
      byteAt pb (INDEX_IN pb.rowstride pb.n_channels x y + 3) := by
  rw [renderStores, applyStores_append]
  apply applyStores_agree
  · exact ⟨_, (mem_loopStores _ pb rg).2 ⟨y, hy, x, hx,
      (mem_pixelStores _ pb rg x y halpha).2 (Or.inr (Or.inl rfl))⟩, rfl, rfl⟩
  · intro s hs hp ho
    obtain ⟨y', _, x', hx', hs'⟩ := (mem_loopStores s pb rg).1 hs
    rcases (mem_pixelStores s pb rg x' y' halpha).1 hs' with rfl | rfl | ⟨_, rfl | rfl⟩
    · cases hp
    · obtain ⟨rfl, rfl⟩ := index_out_inj _ _ _ _ _ _ _ hpp hpitch hx' hx ho
      rfl
    · cases hp
    · cases hp

/-- The chroma bytes of an even pixel after the stores of `Render`. -/
theorem renderStores_chroma (pb : GdkPixbuf) (rg : subpicture_region_t) (m : PlaneMem)
    (halpha : pb.has_alpha = true)
    (hpp : 1 ≤ rg.U_PIXEL_PITCH)
    (hpitch : (pb.width + 1) / 2 * rg.U_PIXEL_PITCH ≤ rg.U_PITCH)
    (x y : ℕ) (hx : x < pb.width) (hy : y < pb.height) (ex : x % 2 = 0) (ey : y % 2 = 0) :
    applyStores m (renderStores pb rg) PlaneId.U
        (UV_INDEX_OUT rg.U_PITCH rg.U_PIXEL_PITCH x y) =
      toUint8 (uExpr (rgbAt pb x y).1 (rgbAt pb x y).2.1 (rgbAt pb x y).2.2) ∧
    applyStores m (renderStores pb rg) PlaneId.V
        (UV_INDEX_OUT rg.U_PITCH rg.U_PIXEL_PITCH x y) =
      toUint8 (vExpr (rgbAt pb x y).1 (rgbAt pb x y).2.1 (rgbAt pb x y).2.2) := by
  rw [renderStores, applyStores_append]
  constructor
  · apply applyStores_agree
    · exact ⟨_, (mem_loopStores _ pb rg).2 ⟨y, hy, x, hx,
        (mem_pixelStores _ pb rg x y halpha).2 (Or.inr (Or.inr ⟨⟨ex, ey⟩, Or.inl rfl⟩))⟩,
        rfl, rfl⟩
    · intro s hs hp ho
      obtain ⟨y', _, x', hx', hs'⟩ := (mem_loopStores s pb rg).1 hs
      rcases (mem_pixelStores s pb rg x' y' halpha).1 hs' with
        rfl | rfl | ⟨⟨ex', ey'⟩, rfl | rfl⟩
      · cases hp
      · cases hp
      · obtain ⟨rfl, rfl⟩ :=
          uv_index_out_inj _ _ _ _ _ _ _ hpp hpitch hx' hx ex' ey' ex ey ho
        rfl
      · cases hp
  · apply applyStores_agree
    · exact ⟨_, (mem_loopStores _ pb rg).2 ⟨y, hy, x, hx,
        (mem_pixelStores _ pb rg x y halpha).2 (Or.inr (Or.inr ⟨⟨ex, ey⟩, Or.inr rfl⟩))⟩,
        rfl, rfl⟩
    · intro s hs hp ho
      obtain ⟨y', _, x', hx', hs'⟩ := (mem_loopStores s pb rg).1 hs
      rcases (mem_pixelStores s pb rg x' y' halpha).1 hs' with
        rfl | rfl | ⟨⟨ex', ey'⟩, rfl | rfl⟩
      · cases hp
      · cases hp
      · cases hp
      · obtain ⟨rfl, rfl⟩ :=
          uv_index_out_inj _ _ _ _ _ _ _ hpp hpitch hx' hx ex' ey' ex ey ho
        rfl

/-- The stores of the loops of `Render` on the red square, in program order. -/
theorem loopStores_redSquare (rg : subpicture_region_t) :
    loopStores redSquare rg =
      [⟨PlaneId.Y, INDEX_OUT rg.Y_PITCH rg.Y_PIXEL_PITCH 0 0, 76⟩,
       ⟨PlaneId.A, INDEX_OUT rg.Y_PITCH rg.Y_PIXEL_PITCH 0 0, 255⟩,
       ⟨PlaneId.U, UV_INDEX_OUT rg.U_PITCH rg.U_PIXEL_PITCH 0 0, 84⟩,
       ⟨PlaneId.V, UV_INDEX_OUT rg.U_PITCH rg.U_PIXEL_PITCH 0 0, 255⟩,
       ⟨PlaneId.Y, INDEX_OUT rg.Y_PITCH rg.Y_PIXEL_PITCH 1 0, 76⟩,
       ⟨PlaneId.A, INDEX_OUT rg.Y_PITCH rg.Y_PIXEL_PITCH 1 0, 255⟩,
       ⟨PlaneId.Y, INDEX_OUT rg.Y_PITCH rg.Y_PIXEL_PITCH 0 1, 76⟩,
       ⟨PlaneId.A, INDEX_OUT rg.Y_PITCH rg.Y_PIXEL_PITCH 0 1, 255⟩,
       ⟨PlaneId.Y, INDEX_OUT rg.Y_PITCH rg.Y_PIXEL_PITCH 1 1, 76⟩,
       ⟨PlaneId.A, INDEX_OUT rg.Y_PITCH rg.Y_PIXEL_PITCH 1 1, 255⟩] := rfl

/-! ## The pixel pass of Render -/

/-- C3. Alpha plane of `Render`: for a raster with an alpha channel and a region
with `i_pitch ≥ width * pixel_pitch` (a pixel pitch counts the bytes of one
sample, so it is at least 1), after `Render` the alpha byte at
`y * i_pitch + x * pixel_pitch`, the offset of the pixel's luma sample, is the
raster byte `pixels_in[y * rowstride + x * channels + 3]`, unchanged; for a
raster with 4 channels, `rowstride ≥ 4 * width` and a buffer of at least
`height * rowstride` bytes that byte lies inside the buffer. -/
theorem Render_alpha_plane (env : Env) (p_spu : subpicture_t) (p_string : subpicture_data_t)
    (pb : GdkPixbuf) (rg : subpicture_region_t)
    (hrend : p_string.p_rendition = Rendition.pixbuf pb)
    (hreg : env.pf_create_region pb.width pb.height = some rg)
    (halpha : pb.has_alpha = true)
    (hpp : 1 ≤ rg.Y_PIXEL_PITCH) (hpitch : pb.width * rg.Y_PIXEL_PITCH ≤ rg.Y_PITCH)
    (x y : ℕ) (hx : x < pb.width) (hy : y < pb.height) :
    ∃ out, (Render env p_spu p_string).1.p_region = some out ∧
      out.p_pixels PlaneId.A (y * rg.Y_PITCH + x * rg.Y_PIXEL_PITCH) =
        byteAt pb (y * pb.rowstride + x * pb.n_channels + 3) ∧
      (pb.n_channels = 4 → 4 * pb.width ≤ pb.rowstride →
        pb.height * pb.rowstride ≤ pb.pixels.length →
        pb.pixels[y * pb.rowstride + x * pb.n_channels + 3]? =
          some (out.p_pixels PlaneId.A (y * rg.Y_PITCH + x * rg.Y_PIXEL_PITCH))) := by
  have hA := renderStores_alpha pb rg rg.p_pixels halpha hpp hpitch x y hx hy
  refine ⟨_, Render_region env p_spu p_string pb rg hrend hreg, hA, ?_⟩
  intro hch hrow hlen
  rw [byteAt_inbounds pb hch hrow hlen x y 3 hx hy (by omega)]
  exact congrArg some hA.symm

theorem Render_alpha_plane_witness :
    ∃ out, (Render (envOf redSquare) blankSubpicture (dataOf redSquare)).1.p_region
        = some out ∧
      out.p_pixels PlaneId.A (1 * region2x2.Y_PITCH + 0 * region2x2.Y_PIXEL_PITCH) =
        byteAt redSquare (1 * redSquare.rowstride + 0 * redSquare.n_channels + 3) ∧
      (redSquare.n_channels = 4 → 4 * redSquare.width ≤ redSquare.rowstride →
        redSquare.height * redSquare.rowstride ≤ redSquare.pixels.length →
        redSquare.pixels[1 * redSquare.rowstride + 0 * redSquare.n_channels + 3]? =
          some (out.p_pixels PlaneId.A
            (1 * region2x2.Y_PITCH + 0 * region2x2.Y_PIXEL_PITCH))) :=
  Render_alpha_plane (envOf redSquare) blankSubpicture (dataOf redSquare) redSquare region2x2
    rfl rfl rfl (by decide) (by decide) 0 1 (by decide) (by decide)

/-- C9. Raster without alpha: when the raster's has-alpha flag is false the
loops of `Render` perform no store at all; after `Render` every byte of the
alpha plane is what it was before the call, every luma byte below
`i_pitch * fmt.i_height` is 0x00 and every chroma byte below
`i_u_pitch * fmt.i_height` is 0x80, whatever the bytes of the raster are. -/
theorem Render_without_alpha (env : Env) (p_spu : subpicture_t)
    (p_string : subpicture_data_t) (pb : GdkPixbuf) (rg : subpicture_region_t)
    (hrend : p_string.p_rendition = Rendition.pixbuf pb)
    (hreg : env.pf_create_region pb.width pb.height = some rg)
    (halpha : pb.has_alpha = false) :
    loopStores pb rg = [] ∧
    ∃ out, (Render env p_spu p_string).1.p_region = some out ∧
      (∀ o, out.p_pixels PlaneId.A o = rg.p_pixels PlaneId.A o) ∧
      (∀ o, o < rg.Y_PITCH * rg.fmt_i_height → out.p_pixels PlaneId.Y o = 0x00) ∧
      (∀ o, o < rg.U_PITCH * rg.fmt_i_height →
        out.p_pixels PlaneId.U o = 0x80 ∧ out.p_pixels PlaneId.V o = 0x80) := by
  have hloop : loopStores pb rg = [] := by
    simp [loopStores, pixelStores, halpha]
  refine ⟨hloop, _, Render_region env p_spu p_string pb rg hrend hreg, ?_, ?_, ?_⟩
  · intro o
    simp only [renderRegion, renderStores, hloop, List.append_nil]
    apply applyStores_untouched
    intro s hs hc
    rcases (mem_initStores s rg).1 hs with h | h | h <;> simp [hc.1] at h
  · intro o ho
    simp only [renderRegion, renderStores, hloop, List.append_nil]
    apply applyStores_agree
    · exact ⟨⟨PlaneId.Y, o, 0x00⟩, (mem_initStores _ rg).2 (Or.inl ⟨rfl, ho, rfl⟩), rfl, rfl⟩
    · intro s hs hp _
      rcases (mem_initStores s rg).1 hs with h | h | h
      · exact h.2.2
      · simp [hp] at h
      · simp [hp] at h
  · intro o ho
    simp only [renderRegion, renderStores, hloop, List.append_nil]
    constructor
    · apply applyStores_agree
      · exact ⟨⟨PlaneId.U, o, 0x80⟩,
          (mem_initStores _ rg).2 (Or.inr (Or.inl ⟨rfl, ho, rfl⟩)), rfl, rfl⟩
      · intro s hs hp _
        rcases (mem_initStores s rg).1 hs with h | h | h
        · simp [hp] at h
        · exact h.2.2
        · simp [hp] at h
    · apply applyStores_agree
      · exact ⟨⟨PlaneId.V, o, 0x80⟩,
          (mem_initStores _ rg).2 (Or.inr (Or.inr ⟨rfl, ho, rfl⟩)), rfl, rfl⟩
      · intro s hs hp _
        rcases (mem_initStores s rg).1 hs with h | h | h
        · simp [hp] at h
        · simp [hp] at h
        · exact h.2.2

theorem Render_without_alpha_witness :
    loopStores redSquareRGB region2x2 = [] ∧
    ∃ out, (Render (envOf redSquareRGB) blankSubpicture (dataOf redSquareRGB)).1.p_region
        = some out ∧
      (∀ o, out.p_pixels PlaneId.A o = region2x2.p_pixels PlaneId.A o) ∧
      (∀ o, o < region2x2.Y_PITCH * region2x2.fmt_i_height →
        out.p_pixels PlaneId.Y o = 0x00) ∧
      (∀ o, o < region2x2.U_PITCH * region2x2.fmt_i_height →
        out.p_pixels PlaneId.U o = 0x80 ∧ out.p_pixels PlaneId.V o = 0x80) :=
  Render_without_alpha (envOf redSquareRGB) blankSubpicture (dataOf redSquareRGB)
    redSquareRGB region2x2 rfl rfl rfl

/-- The input of C10 at which the initialisation leaves the half-height plane:
a 2x2 raster with a region whose chroma pitch is 1 (`ceil(2/2)`), whose chroma
pixel pitch is 1 and whose format has the raster's height; `Render` stores to
offset 1 of the U plane, and `1 < 1 * ceil(2/2)` is false. -/
theorem chroma_init_exceeds_half_plane :
    1 ≤ redSquare.width ∧ 1 ≤ redSquare.height ∧ region2x2.U_PIXEL_PITCH = 1 ∧
    (redSquare.width + 1) / 2 ≤ region2x2.U_PITCH ∧
    region2x2.fmt_i_height = redSquare.height ∧
    ∃ s ∈ renderStores redSquare region2x2, s.plane = PlaneId.U ∧
      ¬ s.offset < region2x2.U_PITCH * ((redSquare.height + 1) / 2) := by
  decide

/-- C10, amended. Chroma stores of `Render` for a raster of width `w ≥ 1` and
height `h ≥ 1` and a region with chroma pixel pitch 1, `i_u_pitch ≥ ceil(w/2)`
and `fmt.i_height = h`: every store of the loops into U or V has an offset
below `i_u_pitch * ceil(h/2)`; the 0x80 initialisation stores to every offset
below `i_u_pitch * h` of U and of V and to no other; hence every offset `Render`
stores to in U or V is below `i_u_pitch * h`. -/
theorem Render_chroma_store_bounds (pb : GdkPixbuf) (rg : subpicture_region_t)
    (_hw : 1 ≤ pb.width) (hh : 1 ≤ pb.height) (hpp : rg.U_PIXEL_PITCH = 1)
    (hpitch : (pb.width + 1) / 2 ≤ rg.U_PITCH) (hfmt : rg.fmt_i_height = pb.height) :
    (∀ s ∈ loopStores pb rg, s.plane = PlaneId.U ∨ s.plane = PlaneId.V →
      s.offset < rg.U_PITCH * ((pb.height + 1) / 2)) ∧
    (∀ o, (∃ s ∈ initStores rg, s.plane = PlaneId.U ∧ s.offset = o) ↔
      o < rg.U_PITCH * pb.height) ∧
    (∀ o, (∃ s ∈ initStores rg, s.plane = PlaneId.V ∧ s.offset = o) ↔
      o < rg.U_PITCH * pb.height) ∧
    (∀ s ∈ renderStores pb rg, s.plane = PlaneId.U ∨ s.plane = PlaneId.V →
      s.offset < rg.U_PITCH * pb.height) := by
  have hloop : ∀ s ∈ loopStores pb rg, s.plane = PlaneId.U ∨ s.plane = PlaneId.V →
      s.offset < rg.U_PITCH * ((pb.height + 1) / 2) := by
    intro s hs hp
    obtain ⟨y, hy, x, hx, hs'⟩ := (mem_loopStores s pb rg).1 hs
    by_cases ha : pb.has_alpha = true
    · have hoff : s.offset = UV_INDEX_OUT rg.U_PITCH rg.U_PIXEL_PITCH x y := by
        rcases (mem_pixelStores s pb rg x y ha).1 hs' with rfl | rfl | ⟨_, rfl | rfl⟩
        · simp at hp
        · simp at hp
        · rfl
        · rfl
      rw [hoff]
      simp only [UV_INDEX_OUT, Nat.shiftRight_eq_div_pow, pow_one, hpp, Nat.mul_one]
      have h1 : (y / 2 + 1) * rg.U_PITCH ≤ (pb.height + 1) / 2 * rg.U_PITCH :=
        Nat.mul_le_mul_right _ (by omega)
      rw [Nat.add_mul, Nat.one_mul] at h1
      rw [Nat.mul_comm rg.U_PITCH]
      omega
    · simp [pixelStores, ha] at hs'
  have hhalf : rg.U_PITCH * ((pb.height + 1) / 2) ≤ rg.U_PITCH * pb.height :=
    Nat.mul_le_mul_left _ (by omega)
  refine ⟨hloop, ?_, ?_, ?_⟩
  · intro o
    constructor
    · rintro ⟨s, hs, hp, rfl⟩
      rcases (mem_initStores s rg).1 hs with h | h | h
      · simp [hp] at h
      · rw [← hfmt]; exact h.2.1
      · simp [hp] at h
    · intro ho
      exact ⟨⟨PlaneId.U, o, 0x80⟩,
        (mem_initStores _ rg).2 (Or.inr (Or.inl ⟨rfl, hfmt ▸ ho, rfl⟩)), rfl, rfl⟩
  · intro o
    constructor
    · rintro ⟨s, hs, hp, rfl⟩
      rcases (mem_initStores s rg).1 hs with h | h | h
      · simp [hp] at h
      · simp [hp] at h
      · rw [← hfmt]; exact h.2.1
    · intro ho
      exact ⟨⟨PlaneId.V, o, 0x80⟩,
        (mem_initStores _ rg).2 (Or.inr (Or.inr ⟨rfl, hfmt ▸ ho, rfl⟩)), rfl, rfl⟩
  · intro s hs hp
    rcases List.mem_append.1 hs with hi | hl
    · rw [← hfmt]
      rcases (mem_initStores s rg).1 hi with h | h | h
      · rcases hp with hp | hp <;> simp [hp] at h
      · exact h.2.1
      · exact h.2.1
    · exact lt_of_lt_of_le (hloop s hl hp) hhalf

theorem Render_chroma_store_bounds_witness :
    (∀ s ∈ loopStores redSquare region2x2, s.plane = PlaneId.U ∨ s.plane = PlaneId.V →
      s.offset < region2x2.U_PITCH * ((redSquare.height + 1) / 2)) ∧
    (∀ o, (∃ s ∈ initStores region2x2, s.plane = PlaneId.U ∧ s.offset = o) ↔
      o < region2x2.U_PITCH * redSquare.height) ∧
    (∀ o, (∃ s ∈ initStores region2x2, s.plane = PlaneId.V ∧ s.offset = o) ↔
      o < region2x2.U_PITCH * redSquare.height) ∧
    (∀ s ∈ renderStores redSquare region2x2, s.plane = PlaneId.U ∨ s.plane = PlaneId.V →
      s.offset < region2x2.U_PITCH * redSquare.height) :=
  Render_chroma_store_bounds redSquare region2x2 (by decide) (by decide) rfl (by decide) rfl

/-- The red square of C7 gives U = 84, not 108: `-.1687 * 255 + 128` is about
84.98. -/
theorem red_square_U_is_84 :
    ∃ out, (Render (envOf redSquare) blankSubpicture (dataOf redSquare)).1.p_region
        = some out ∧
      out.p_pixels PlaneId.U 0 = 84 ∧ out.p_pixels PlaneId.U 0 ≠ 108 :=
  ⟨_, Render_region (envOf redSquare) blankSubpicture (dataOf redSquare) redSquare
    region2x2 rfl rfl, by decide, by decide⟩

/-- C7, amended. Red square: `Render` on the 2x2 RGBA raster whose pixels are all
R=255, G=0, B=0, A=255 (with a region of luma pixel pitch at least 1 and luma
pitch at least twice that) gives luma 76 and alpha 255 at each of the four
pixels; the loops store exactly one sample in each chroma plane, the one at
chroma offset 0 produced by pixel (0,0); that U sample is 84 and that V sample
is 255. -/
theorem Render_red_square (env : Env) (p_spu : subpicture_t) (p_string : subpicture_data_t)
    (rg : subpicture_region_t)
    (hrend : p_string.p_rendition = Rendition.pixbuf redSquare)
    (hreg : env.pf_create_region 2 2 = some rg)
    (hpp : 1 ≤ rg.Y_PIXEL_PITCH) (hpitch : 2 * rg.Y_PIXEL_PITCH ≤ rg.Y_PITCH) :
    ∃ out, (Render env p_spu p_string).1.p_region = some out ∧
      (∀ x y, x < 2 → y < 2 →
        out.p_pixels PlaneId.Y (y * rg.Y_PITCH + x * rg.Y_PIXEL_PITCH) = 76 ∧
        out.p_pixels PlaneId.A (y * rg.Y_PITCH + x * rg.Y_PIXEL_PITCH) = 255) ∧
      (loopStores redSquare rg).filter (fun s => s.plane = PlaneId.U) =
        [⟨PlaneId.U, 0, 84⟩] ∧
      (loopStores redSquare rg).filter (fun s => s.plane = PlaneId.V) =
        [⟨PlaneId.V, 0, 255⟩] ∧
      out.p_pixels PlaneId.U 0 = 84 ∧ out.p_pixels PlaneId.V 0 = 255 := by
  refine ⟨_, Render_region env p_spu p_string redSquare rg hrend hreg, ?_, ?_, ?_, ?_, ?_⟩
  · intro x y hx hy
    have hY := renderStores_luma redSquare rg rg.p_pixels rfl hpp hpitch x y hx hy
    have hA := renderStores_alpha redSquare rg rg.p_pixels rfl hpp hpitch x y hx hy
    have hv : toUint8 (lumaExpr (rgbAt redSquare x y).1 (rgbAt redSquare x y).2.1
          (rgbAt redSquare x y).2.2) = 76 ∧
        byteAt redSquare (INDEX_IN redSquare.rowstride redSquare.n_channels x y + 3) = 255 := by
      have hx' : x < 2 := hx
      have hy' : y < 2 := hy
      interval_cases x <;> interval_cases y <;> exact ⟨by decide, by decide⟩
    rw [hv.1] at hY
    rw [hv.2] at hA
    exact ⟨hY, hA⟩
  · rw [loopStores_redSquare, uv_index_out_origin]
    rfl
  · rw [loopStores_redSquare, uv_index_out_origin]
    rfl
  · show applyStores rg.p_pixels (renderStores redSquare rg) PlaneId.U 0 = 84
    rw [renderStores, applyStores_append, loopStores_redSquare, uv_index_out_origin]
    rfl
  · show applyStores rg.p_pixels (renderStores redSquare rg) PlaneId.V 0 = 255
    rw [renderStores, applyStores_append, loopStores_redSquare, uv_index_out_origin]
    rfl

theorem Render_red_square_witness :
    ∃ out, (Render (envOf redSquare) blankSubpicture (dataOf redSquare)).1.p_region
        = some out ∧
      (∀ x y, x < 2 → y < 2 →
        out.p_pixels PlaneId.Y (y * region2x2.Y_PITCH + x * region2x2.Y_PIXEL_PITCH) = 76 ∧
        out.p_pixels PlaneId.A (y * region2x2.Y_PITCH + x * region2x2.Y_PIXEL_PITCH) = 255) ∧
      (loopStores redSquare region2x2).filter (fun s => s.plane = PlaneId.U) =
        [⟨PlaneId.U, 0, 84⟩] ∧
      (loopStores redSquare region2x2).filter (fun s => s.plane = PlaneId.V) =
        [⟨PlaneId.V, 0, 255⟩] ∧
      out.p_pixels PlaneId.U 0 = 84 ∧ out.p_pixels PlaneId.V 0 = 255 :=
  Render_red_square (envOf redSquare) blankSubpicture (dataOf redSquare) region2x2
    rfl rfl (by decide) (by decide)

/-! ## Rounding to binary64 -/

theorem rne_error (m : ℤ) (k : ℕ) : 2 * |rne m k * 2 ^ k - m| ≤ 2 ^ k := by
  unfold rne
  by_cases hk : k = 0
  · subst hk
    simp
  · simp only [hk, if_false]
    have h2 : (2 : ℤ) ^ k = 2 * 2 ^ (k - 1) := by
      obtain ⟨j, rfl⟩ : ∃ j, k = j + 1 := ⟨k - 1, by omega⟩
      simp [pow_succ, mul_comm]
    have hP : (0 : ℤ) < 2 ^ (k - 1) := by positivity
    have hdiv := Int.ediv_add_emod m (2 ^ k)
    have hr0 := Int.emod_nonneg m (show (2 : ℤ) ^ k ≠ 0 by positivity)
    have hr1 := Int.emod_lt_of_pos m (show (0 : ℤ) < 2 ^ k by positivity)
    generalize m / 2 ^ k = q at *
    generalize m % 2 ^ k = r at *
    rw [h2] at hdiv hr1 ⊢
    generalize (2 : ℤ) ^ (k - 1) = P at *
    split_ifs with h1 h3 h4
    · have : q * (2 * P) - m = -r := by linarith
      rw [this, abs_neg, abs_of_nonneg hr0]
      linarith
    · have : (q + 1) * (2 * P) - m = 2 * P - r := by linarith
      rw [this, abs_of_nonneg (by linarith)]
      linarith
    · have : q * (2 * P) - m = -r := by linarith
      rw [this, abs_neg, abs_of_nonneg hr0]
      linarith
    · have : (q + 1) * (2 * P) - m = 2 * P - r := by linarith
      rw [this, abs_of_nonneg (by linarith)]
      linarith

theorem log2Fuel_le (fuel n : ℕ) (h : n ≤ fuel) (hn : n ≠ 0) : 2 ^ log2Fuel fuel n ≤ n := by
  induction fuel generalizing n with
  | zero => omega
  | succ fuel ih =>
    unfold log2Fuel
    split_ifs with h2
    · simp; omega
    · have := ih (n / 2) (by omega) (by omega)
      rw [pow_succ]
      omega

theorem ilog2_le (n : ℕ) (hn : n ≠ 0) : 2 ^ ilog2 n ≤ n := log2Fuel_le n n le_rfl hn

theorem log2Fuel_lt (fuel n : ℕ) (h : n ≤ fuel) : n < 2 ^ (log2Fuel fuel n + 1) := by
  induction fuel generalizing n with
  | zero =>
    have : n = 0 := by omega
    subst this
    simp [log2Fuel]
  | succ fuel ih =>
    unfold log2Fuel
    split_ifs with h2
    · simpa using h2
    · have := ih (n / 2) (by omega)
      rw [pow_succ] at this ⊢
      omega

theorem lt_ilog2 (n : ℕ) : n < 2 ^ (ilog2 n + 1) := log2Fuel_lt n n le_rfl

theorem toRat_round53_eq (d : Dyadic) (h : ¬ d.m.natAbs < 2 ^ 53) :
    toRat (round53 d) - toRat d =
      ((rne d.m (ilog2 d.m.natAbs - 52) * 2 ^ (ilog2 d.m.natAbs - 52) - d.m : ℤ) : ℚ)
        * (2 : ℚ) ^ d.e := by
  simp only [round53, h, if_false, toRat]
  rw [zpow_add₀ (by norm_num : (2 : ℚ) ≠ 0), zpow_natCast]
  push_cast
  ring

/-- Rounding to 53 bits moves a value by at most `2 ^ -53` of its size. -/
theorem round53_error (d : Dyadic) : |toRat (round53 d) - toRat d| ≤ |toRat d| / 2 ^ 53 := by
  by_cases h : d.m.natAbs < 2 ^ 53
  · simp only [round53, h, if_true, sub_self, abs_zero]
    positivity
  · rw [toRat_round53_eq d h]
    set k := ilog2 d.m.natAbs - 52 with hk
    have hpos : (0 : ℚ) < (2 : ℚ) ^ d.e := by positivity
    have hn : d.m.natAbs ≠ 0 := by
      intro h0
      rw [h0] at h
      exact h (by positivity)
    have hlog := ilog2_le d.m.natAbs hn
    have hbig : 2 ^ (k + 52) ≤ d.m.natAbs := by
      rcases Nat.lt_or_ge (ilog2 d.m.natAbs) 52 with hl | hl
      · have : k + 52 = 52 := by omega
        rw [this]
        have : 2 ^ 52 ≤ 2 ^ 53 := by norm_num
        omega
      · have : k + 52 = ilog2 d.m.natAbs := by omega
        rw [this]
        exact hlog
    have hbigZ : (2 : ℤ) ^ (k + 52) ≤ |d.m| := by
      have : ((2 ^ (k + 52) : ℕ) : ℤ) ≤ (d.m.natAbs : ℤ) := by exact_mod_cast hbig
      rw [Int.natCast_natAbs] at this
      exact_mod_cast this
    have herr := rne_error d.m k
    have hcomb : 2 ^ 53 * |rne d.m k * 2 ^ k - d.m| ≤ |d.m| := by
      have h52 : (2 : ℤ) ^ (k + 52) = 2 ^ k * 2 ^ 52 := pow_add 2 k 52
      rw [h52] at hbigZ
      generalize (2 : ℤ) ^ k = K at herr hbigZ
      generalize |rne d.m k * K - d.m| = A at herr ⊢
      generalize |d.m| = M at hbigZ ⊢
      norm_num at hbigZ ⊢
      omega
    have hcombQ : (2 : ℚ) ^ 53 * |((rne d.m k * 2 ^ k - d.m : ℤ) : ℚ)| ≤ |(d.m : ℚ)| := by
      have h : ((2 ^ 53 * |rne d.m k * 2 ^ k - d.m| : ℤ) : ℚ) ≤ ((|d.m| : ℤ) : ℚ) :=
        Int.cast_le.2 hcomb
      simpa [Int.cast_abs] using h
    rw [abs_mul, toRat, abs_mul, abs_of_pos hpos, le_div_iff₀ (by positivity)]
    calc |((rne d.m k * 2 ^ k - d.m : ℤ) : ℚ)| * 2 ^ d.e * 2 ^ 53
        = (2 ^ 53 * |((rne d.m k * 2 ^ k - d.m : ℤ) : ℚ)|) * 2 ^ d.e := by ring
      _ ≤ |(d.m : ℚ)| * 2 ^ d.e := mul_le_mul_of_nonneg_right hcombQ hpos.le

/-- The result of `round53` has a significand of at most 53 bits (or is the
power of two above them): it is a binary64 number. -/
theorem round53_fits (d : Dyadic) : (round53 d).m.natAbs ≤ 2 ^ 53 := by
  by_cases h : d.m.natAbs < 2 ^ 53
  · simp only [round53, h, if_true]
    exact h.le
  · simp only [round53, h, if_false]
    set k := ilog2 d.m.natAbs - 52 with hk
    have hlt := lt_ilog2 d.m.natAbs
    have hL : 53 ≤ ilog2 d.m.natAbs := by
      by_contra hc
      have h1 : ilog2 d.m.natAbs + 1 ≤ 53 := by omega
      have h2 : 2 ^ (ilog2 d.m.natAbs + 1) ≤ 2 ^ 53 := Nat.pow_le_pow_right (by norm_num) h1
      omega
    have hk52 : ilog2 d.m.natAbs + 1 = k + 53 := by omega
    rw [hk52, pow_add] at hlt
    have hltZ : |d.m| < 2 ^ k * 2 ^ 53 := by
      have : ((d.m.natAbs : ℕ) : ℤ) < ((2 ^ k * 2 ^ 53 : ℕ) : ℤ) := by exact_mod_cast hlt
      rw [Int.natCast_natAbs] at this
      exact_mod_cast this
    have herr := rne_error d.m k
    have hp : (0 : ℤ) < 2 ^ k := by positivity
    have habs : |rne d.m k| * 2 ^ k ≤ |d.m| + |rne d.m k * 2 ^ k - d.m| := by
      have := abs_add (d.m) (rne d.m k * 2 ^ k - d.m)
      rw [show d.m + (rne d.m k * 2 ^ k - d.m) = rne d.m k * 2 ^ k by ring, abs_mul,
        abs_of_pos hp] at this
      exact this
    have hfin : |rne d.m k| ≤ 2 ^ 53 := by
      by_contra hc
      have h1 : (2 ^ 53 + 1) * 2 ^ k ≤ |rne d.m k| * 2 ^ k :=
        mul_le_mul_of_nonneg_right (by omega) hp.le
      generalize |rne d.m k * 2 ^ k - d.m| = A at herr habs
      generalize |rne d.m k| * 2 ^ k = B at habs h1
      generalize |d.m| = M at hltZ habs
      generalize (2 : ℤ) ^ k = K at herr hltZ h1 hp
      norm_num at h1 hltZ
      omega
    have : ((rne d.m k).natAbs : ℤ) ≤ ((2 ^ 53 : ℕ) : ℤ) := by
      rw [Int.natCast_natAbs]
      exact_mod_cast hfin
    exact_mod_cast this

/-- The dyadic constants are the binary64 numbers nearest to the decimal
literals of lines 327-337: a 53-bit significand within half a unit in the last
place of the decimal value. -/
theorem literals_nearest :
    |toRat c299 - 299 / 1000| ≤ 1 / 2 ^ 55 ∧ |toRat c587 - 587 / 1000| ≤ 1 / 2 ^ 54 ∧
    |toRat c114 - 114 / 1000| ≤ 1 / 2 ^ 57 ∧ |toRat c1687 - 1687 / 10000| ≤ 1 / 2 ^ 56 ∧
    |toRat c3313 - 3313 / 10000| ≤ 1 / 2 ^ 55 ∧ toRat c5 = 1 / 2 ∧
    |toRat c4187 - 4187 / 10000| ≤ 1 / 2 ^ 55 ∧ |toRat c0813 - 813 / 10000| ≤ 1 / 2 ^ 57 ∧
    (∀ c ∈ [c299, c587, c114, c1687, c3313, c4187, c0813],
      2 ^ 52 ≤ c.m ∧ c.m < 2 ^ 53) := by
  refine ⟨?_, ?_, ?_, ?_, ?_, ?_, ?_, ?_, by decide⟩
  · rw [abs_le]; norm_num [toRat, c299]
  · rw [abs_le]; norm_num [toRat, c587]
  · rw [abs_le]; norm_num [toRat, c114]
  · rw [abs_le]; norm_num [toRat, c1687]
  · rw [abs_le]; norm_num [toRat, c3313]
  · norm_num [toRat, c5]
  · rw [abs_le]; norm_num [toRat, c4187]
  · rw [abs_le]; norm_num [toRat, c0813]

theorem toRat_mulExact (a b : Dyadic) : toRat (mulExact a b) = toRat a * toRat b := by
  simp only [mulExact, toRat]
  rw [zpow_add₀ (by norm_num : (2 : ℚ) ≠ 0)]
  push_cast
  ring

theorem toRat_scale (m e e' : ℤ) (h : e' ≤ e) :
    ((m * 2 ^ (e - e').toNat : ℤ) : ℚ) * (2 : ℚ) ^ e' = m * (2 : ℚ) ^ e := by
  have h1 : (2 : ℚ) ^ e = 2 ^ (e - e') * 2 ^ e' := by
    rw [← zpow_add₀ (by norm_num : (2 : ℚ) ≠ 0)]
    congr 1
    ring
  have h2 : ((2 : ℚ) ^ (e - e').toNat) = (2 : ℚ) ^ (e - e') := by
    rw [← zpow_natCast, Int.toNat_of_nonneg (by omega)]
  push_cast
  rw [h1, h2]
  ring

theorem toRat_addExact (a b : Dyadic) : toRat (addExact a b) = toRat a + toRat b := by
  simp only [addExact, toRat]
  push_cast
  rw [add_mul]
  have ha := toRat_scale a.m a.e (min a.e b.e) (min_le_left _ _)
  have hb := toRat_scale b.m b.e (min a.e b.e) (min_le_right _ _)
  push_cast at ha hb
  rw [ha, hb]

theorem toRat_neg (a : Dyadic) : toRat (neg a) = -toRat a := by
  simp [neg, toRat]

theorem toRat_ofInt (n : ℤ) : toRat (ofInt n) = n := by
  simp [ofInt, toRat]

theorem toRat_ofNat (n : ℕ) : toRat (ofInt n) = n := by
  simp [toRat_ofInt]

theorem round53_near (d : Dyadic) (h : |toRat d| ≤ 512) :
    |toRat (round53 d) - toRat d| ≤ 1 / 2 ^ 44 := by
  have h1 := round53_error d
  have h2 : |toRat d| / 2 ^ 53 ≤ 1 / 2 ^ 44 := by
    rw [div_le_iff₀ (by positivity)]
    norm_num
    linarith
  exact le_trans h1 h2

theorem fmul_near (a b : Dyadic) (x y : ℚ) (ha : toRat a = x) (hb : toRat b = y)
    (h : |x * y| ≤ 512) : |toRat (fmul a b) - x * y| ≤ 1 / 2 ^ 44 := by
  subst ha hb
  rw [← toRat_mulExact] at h ⊢
  exact round53_near _ h

theorem fadd_near (a b : Dyadic) (h : |toRat a + toRat b| ≤ 512) :
    |toRat (fadd a b) - (toRat a + toRat b)| ≤ 1 / 2 ^ 44 := by
  rw [← toRat_addExact] at h ⊢
  exact round53_near _ h

theorem fsub_near (a b : Dyadic) (h : |toRat a - toRat b| ≤ 512) :
    |toRat (fsub a b) - (toRat a - toRat b)| ≤ 1 / 2 ^ 44 := by
  have e : toRat a - toRat b = toRat (addExact a (neg b)) := by
    rw [toRat_addExact, toRat_neg]
    ring
  rw [e] at h ⊢
  exact round53_near _ h

/-- The computed luma is within `2 ^ -40` of the exact formula. -/
theorem lumaExpr_near (r g b : ℕ) (hr : r ≤ 255) (hg : g ≤ 255) (hb : b ≤ 255) :
    |toRat (lumaExpr r g b) - lumaExact r g b| ≤ 1 / 2 ^ 40 := by
  have hr1 : (r : ℚ) ≤ 255 := by exact_mod_cast hr
  have hg1 : (g : ℚ) ≤ 255 := by exact_mod_cast hg
  have hb1 : (b : ℚ) ≤ 255 := by exact_mod_cast hb
  have hr0 : (0 : ℚ) ≤ r := Nat.cast_nonneg r
  have hg0 : (0 : ℚ) ≤ g := Nat.cast_nonneg g
  have hb0 : (0 : ℚ) ≤ b := Nat.cast_nonneg b
  have m1 := fmul_near c299 (ofInt r) (5386305154335113 / 2 ^ 54) r
    (by norm_num [toRat, c299]) (toRat_ofNat r)
    (by rw [abs_le]; constructor <;> linarith)
  have m2 := fmul_near c587 (ofInt g) (5287225962532962 / 2 ^ 53) g
    (by norm_num [toRat, c587]) (toRat_ofNat g)
    (by rw [abs_le]; constructor <;> linarith)
  have m3 := fmul_near c114 (ofInt b) (8214565720323785 / 2 ^ 56) b
    (by norm_num [toRat, c114]) (toRat_ofNat b)
    (by rw [abs_le]; constructor <;> linarith)
  rw [abs_le] at m1 m2 m3
  have s1 := fadd_near (fmul c299 (ofInt r)) (fmul c587 (ofInt g))
    (by rw [abs_le]; constructor <;> linarith)
  rw [abs_le] at s1
  have s2 := fadd_near (fadd (fmul c299 (ofInt r)) (fmul c587 (ofInt g)))
    (fmul c114 (ofInt b)) (by rw [abs_le]; constructor <;> linarith)
  rw [abs_le] at s2
  unfold lumaExpr lumaExact
  rw [abs_le]
  constructor <;> linarith

/-- The computed U is within `2 ^ -40` of the exact formula. -/
theorem uExpr_near (r g b : ℕ) (hr : r ≤ 255) (hg : g ≤ 255) (hb : b ≤ 255) :
    |toRat (uExpr r g b) - uExact r g b| ≤ 1 / 2 ^ 40 := by
  have hr1 : (r : ℚ) ≤ 255 := by exact_mod_cast hr
  have hg1 : (g : ℚ) ≤ 255 := by exact_mod_cast hg
  have hb1 : (b : ℚ) ≤ 255 := by exact_mod_cast hb
  have hr0 : (0 : ℚ) ≤ r := Nat.cast_nonneg r
  have hg0 : (0 : ℚ) ≤ g := Nat.cast_nonneg g
  have hb0 : (0 : ℚ) ≤ b := Nat.cast_nonneg b
  have m1 := fmul_near (neg c1687) (ofInt r) (-(6078058057099221 / 2 ^ 55)) r
    (by norm_num [toRat, neg, c1687]) (toRat_ofNat r)
    (by rw [abs_le]; constructor <;> linarith)
  have m2 := fmul_near c3313 (ofInt g) (5968170226191381 / 2 ^ 54) g
    (by norm_num [toRat, c3313]) (toRat_ofNat g)
    (by rw [abs_le]; constructor <;> linarith)
  have m3 := fmul_near c5 (ofInt b) (1 / 2) b
    (by norm_num [toRat, c5]) (toRat_ofNat b)
    (by rw [abs_le]; constructor <;> linarith)
  rw [abs_le] at m1 m2 m3
  have s1 := fsub_near (fmul (neg c1687) (ofInt r)) (fmul c3313 (ofInt g))
    (by rw [abs_le]; constructor <;> linarith)
  rw [abs_le] at s1
  have s2 := fadd_near (fsub (fmul (neg c1687) (ofInt r)) (fmul c3313 (ofInt g)))
    (fmul c5 (ofInt b)) (by rw [abs_le]; constructor <;> linarith)
  rw [abs_le] at s2
  have k : toRat (ofInt 128) = 128 := by norm_num [toRat, ofInt]
  have s3 := fadd_near (fadd (fsub (fmul (neg c1687) (ofInt r)) (fmul c3313 (ofInt g)))
    (fmul c5 (ofInt b))) (ofInt 128) (by rw [k, abs_le]; constructor <;> linarith)
  rw [k, abs_le] at s3
  unfold uExpr uExact
  rw [abs_le]
  constructor <;> linarith

/-- The computed V is within `2 ^ -40` of the exact formula. -/
theorem vExpr_near (r g b : ℕ) (hr : r ≤ 255) (hg : g ≤ 255) (hb : b ≤ 255) :
    |toRat (vExpr r g b) - vExact r g b| ≤ 1 / 2 ^ 40 := by
  have hr1 : (r : ℚ) ≤ 255 := by exact_mod_cast hr
  have hg1 : (g : ℚ) ≤ 255 := by exact_mod_cast hg
  have hb1 : (b : ℚ) ≤ 255 := by exact_mod_cast hb
  have hr0 : (0 : ℚ) ≤ r := Nat.cast_nonneg r
  have hg0 : (0 : ℚ) ≤ g := Nat.cast_nonneg g
  have hb0 : (0 : ℚ) ≤ b := Nat.cast_nonneg b
  have m1 := fmul_near c5 (ofInt r) (1 / 2) r
    (by norm_num [toRat, c5]) (toRat_ofNat r)
    (by rw [abs_le]; constructor <;> linarith)
  have m2 := fmul_near c4187 (ofInt g) (7542628655920107 / 2 ^ 54) g
    (by norm_num [toRat, c4187]) (toRat_ofNat g)
    (by rw [abs_le]; constructor <;> linarith)
  have m3 := fmul_near c0813 (ofInt b) (5858282395283541 / 2 ^ 56) b
    (by norm_num [toRat, c0813]) (toRat_ofNat b)
    (by rw [abs_le]; constructor <;> linarith)
  rw [abs_le] at m1 m2 m3
  have s1 := fsub_near (fmul c5 (ofInt r)) (fmul c4187 (ofInt g))
    (by rw [abs_le]; constructor <;> linarith)
  rw [abs_le] at s1
  have s2 := fsub_near (fsub (fmul c5 (ofInt r)) (fmul c4187 (ofInt g)))
    (fmul c0813 (ofInt b)) (by rw [abs_le]; constructor <;> linarith)
  rw [abs_le] at s2
  have k : toRat (ofInt 128) = 128 := by norm_num [toRat, ofInt]
  have s3 := fadd_near (fsub (fsub (fmul c5 (ofInt r)) (fmul c4187 (ofInt g)))
    (fmul c0813 (ofInt b))) (ofInt 128) (by rw [k, abs_le]; constructor <;> linarith)
  rw [k, abs_le] at s3
  unfold vExpr vExact
  rw [abs_le]
  constructor <;> linarith

/-! ## The conversion to 8-bit samples -/

theorem trunc_of_nonneg (d : Dyadic) (h : 0 ≤ toRat d) : trunc d = ⌊toRat d⌋ := by
  have hpos : (0 : ℚ) < (2 : ℚ) ^ d.e := by positivity
  have hm : 0 ≤ d.m := by
    by_contra hneg
    have : (d.m : ℚ) < 0 := by exact_mod_cast (not_le.1 hneg)
    have : toRat d < 0 := mul_neg_of_neg_of_pos this hpos
    linarith
  unfold trunc
  by_cases he : 0 ≤ d.e
  · rw [if_pos he]
    have : toRat d = ((d.m * 2 ^ d.e.toNat : ℤ) : ℚ) := by
      unfold toRat
      push_cast
      rw [← zpow_natCast, Int.toNat_of_nonneg he]
    rw [this, Int.floor_intCast]
  · rw [if_neg he, if_pos hm]
    have : toRat d = (d.m : ℚ) / ((2 ^ (-d.e).toNat : ℕ) : ℚ) := by
      unfold toRat
      push_cast
      rw [← zpow_natCast, Int.toNat_of_nonneg (by omega), zpow_neg, div_eq_mul_inv, inv_inv]
    rw [this, Rat.floor_intCast_div_natCast]
    push_cast
    rfl

theorem trunc_of_neg (d : Dyadic) (h : toRat d < 0) : trunc d = ⌈toRat d⌉ := by
  have hpos : (0 : ℚ) < (2 : ℚ) ^ d.e := by positivity
  have hm : ¬ 0 ≤ d.m := by
    intro hnn
    have : (0 : ℚ) ≤ (d.m : ℚ) := by exact_mod_cast hnn
    have : 0 ≤ toRat d := mul_nonneg this hpos.le
    linarith
  unfold trunc
  by_cases he : 0 ≤ d.e
  · rw [if_pos he]
    have : toRat d = ((d.m * 2 ^ d.e.toNat : ℤ) : ℚ) := by
      unfold toRat
      push_cast
      rw [← zpow_natCast, Int.toNat_of_nonneg he]
    rw [this, Int.ceil_intCast]
  · rw [if_neg he, if_neg hm]
    have : toRat d = -(((-d.m : ℤ) : ℚ) / ((2 ^ (-d.e).toNat : ℕ) : ℚ)) := by
      unfold toRat
      push_cast
      rw [← zpow_natCast, Int.toNat_of_nonneg (by omega), zpow_neg, div_eq_mul_inv, inv_inv]
      ring
    rw [this, Int.ceil_neg, Rat.floor_intCast_div_natCast]
    push_cast
    rfl

/-- A value within `2 ^ -40` of `N / 10000`, `0 ≤ N ≤ 2555000`, has its integer
part in `0..255`, equal to the floor of `N / 10000` or one below it. -/
theorem toUint8_near (d : Dyadic) (N : ℤ) (h0 : 0 ≤ N) (h1 : N ≤ 2555000)
    (hclose : |toRat d - (N : ℚ) / 10000| ≤ 1 / 2 ^ 40) :
    (toUint8 d : ℤ) = trunc d ∧ toUint8 d ≤ 255 ∧
      N / 10000 - 1 ≤ (toUint8 d : ℤ) ∧ (toUint8 d : ℤ) ≤ N / 10000 := by
  obtain ⟨hlo, hhi⟩ := abs_le.1 hclose
  have hN0 : (0 : ℚ) ≤ (N : ℚ) := by exact_mod_cast h0
  have key : 0 ≤ trunc d ∧ N / 10000 - 1 ≤ trunc d ∧ trunc d ≤ N / 10000 := by
    rcases le_or_lt 0 (toRat d) with hx | hx
    · rw [trunc_of_nonneg d hx]
      have f1 := Int.floor_le (toRat d)
      have f2 := Int.lt_floor_add_one (toRat d)
      refine ⟨Int.floor_nonneg.2 hx, ?_, ?_⟩
      · have hF : ((N / 10000 : ℤ) : ℚ) * 10000 ≤ N := by
          have : N / 10000 * 10000 ≤ N := Int.ediv_mul_le N (by norm_num)
          exact_mod_cast this
        have : ((N / 10000 - 2 : ℤ) : ℚ) < (⌊toRat d⌋ : ℚ) := by
          push_cast
          linarith
        have := Int.cast_lt.1 this
        omega
      · by_contra hcon
        have hi : N + 1 ≤ 10000 * ⌊toRat d⌋ := by omega
        have hiQ : (N : ℚ) + 1 ≤ 10000 * (⌊toRat d⌋ : ℚ) := by exact_mod_cast hi
        norm_num at hhi
        linarith
    · rw [trunc_of_neg d hx]
      have c1 := Int.le_ceil (toRat d)
      have c2 := Int.ceil_lt_add_one (toRat d)
      have hc0 : ⌈toRat d⌉ = 0 := by
        have hlt : ((⌈toRat d⌉ : ℤ) : ℚ) < 1 := by linarith
        have hgt : ((-1 : ℤ) : ℚ) < (⌈toRat d⌉ : ℚ) := by
          push_cast
          norm_num at hlo
          linarith
        have a := Int.cast_lt.1 hgt
        have b : ⌈toRat d⌉ < 1 := by exact_mod_cast hlt
        omega
      have hNz : N = 0 := by
        have : (N : ℚ) < 1 := by
          norm_num at hhi hlo
          linarith
        have : N < 1 := by exact_mod_cast this
        omega
      rw [hc0, hNz]
      norm_num
  obtain ⟨k0, k1, k2⟩ := key
  have hU : (toUint8 d : ℤ) = trunc d := by
    unfold toUint8
    rw [Int.toNat_of_nonneg (Int.emod_nonneg _ (by norm_num))]
    omega
  refine ⟨hU, ?_, ?_, ?_⟩
  · have : (toUint8 d : ℤ) ≤ 255 := by omega
    exact_mod_cast this
  · omega
  · omega

theorem lumaExact_eq (r g b : ℕ) :
    lumaExact r g b = ((10 * (299 * r + 587 * g + 114 * b) : ℤ) : ℚ) / 10000 := by
  unfold lumaExact
  push_cast
  ring

theorem uExact_eq (r g b : ℕ) :
    uExact r g b = ((-1687 * r - 3313 * g + 5000 * b + 1280000 : ℤ) : ℚ) / 10000 := by
  unfold uExact
  push_cast
  ring

theorem vExact_eq (r g b : ℕ) :
    vExact r g b = ((5000 * r - 4187 * g - 813 * b + 1280000 : ℤ) : ℚ) / 10000 := by
  unfold vExact
  push_cast
  ring

theorem floor_div_10000 (N : ℤ) : ⌊(N : ℚ) / 10000⌋ = N / 10000 := by
  have := Rat.floor_intCast_div_natCast N 10000
  simpa using this

/-- The luma of R=0, G=72, B=24: the exact value `0.587 * 72 + 0.114 * 24` is 45;
in `double` the products are `5948129207849582 * 2 ^ -47` (42.263999999999996)
and `6160924290242839 * 2 ^ -51` (2.736), their sum rounds to `45 - 2 ^ -47`
(44.99999999999999), and the sample stored is 44, not the floor of the exact
value. -/
theorem luma_sample_below_exact_floor :
    fmul c587 (ofInt 72) = ⟨5948129207849582, -47⟩ ∧
    fmul c114 (ofInt 24) = ⟨6160924290242839, -51⟩ ∧
    lumaExpr 0 72 24 = ⟨6333186975989759, -47⟩ ∧
    toUint8 (lumaExpr 0 72 24) = 44 ∧ ⌊lumaExact 0 72 24⌋ = 45 ∧
    (toUint8 (lumaExpr 0 72 24) : ℤ) ≠ ⌊lumaExact 0 72 24⌋ := by
  have h1 : toUint8 (lumaExpr 0 72 24) = 44 := by decide
  have h2 : ⌊lumaExact 0 72 24⌋ = 45 := by
    rw [lumaExact_eq, floor_div_10000]
    norm_num
  refine ⟨by decide, by decide, by decide, h1, h2, ?_⟩
  rw [h1, h2]
  norm_num

/-- C8, amended. For all R, G, B in 0..255 the exact values of the three
formulas lie in `[0, 256)`; the integer part of each value `Render` computes in
`double` lies in `0..255`, so the conversion to an 8-bit sample stores that
integer part itself, without overflow or wrap-around; the sample is the floor
of the exact value or one less than it. -/
theorem sample_conversion_in_range (r g b : ℕ) (hr : r ≤ 255) (hg : g ≤ 255)
    (hb : b ≤ 255) :
    (0 ≤ lumaExact r g b ∧ lumaExact r g b < 256) ∧
    (0 ≤ uExact r g b ∧ uExact r g b < 256) ∧
    (0 ≤ vExact r g b ∧ vExact r g b < 256) ∧
    ((toUint8 (lumaExpr r g b) : ℤ) = trunc (lumaExpr r g b) ∧
      toUint8 (lumaExpr r g b) ≤ 255 ∧
      ⌊lumaExact r g b⌋ - 1 ≤ (toUint8 (lumaExpr r g b) : ℤ) ∧
      (toUint8 (lumaExpr r g b) : ℤ) ≤ ⌊lumaExact r g b⌋) ∧
    ((toUint8 (uExpr r g b) : ℤ) = trunc (uExpr r g b) ∧
      toUint8 (uExpr r g b) ≤ 255 ∧
      ⌊uExact r g b⌋ - 1 ≤ (toUint8 (uExpr r g b) : ℤ) ∧
      (toUint8 (uExpr r g b) : ℤ) ≤ ⌊uExact r g b⌋) ∧
    ((toUint8 (vExpr r g b) : ℤ) = trunc (vExpr r g b) ∧
      toUint8 (vExpr r g b) ≤ 255 ∧
      ⌊vExact r g b⌋ - 1 ≤ (toUint8 (vExpr r g b) : ℤ) ∧
      (toUint8 (vExpr r g b) : ℤ) ≤ ⌊vExact r g b⌋) := by
  have hr1 : (r : ℚ) ≤ 255 := by exact_mod_cast hr
  have hg1 : (g : ℚ) ≤ 255 := by exact_mod_cast hg
  have hb1 : (b : ℚ) ≤ 255 := by exact_mod_cast hb
  have hr0 : (0 : ℚ) ≤ r := Nat.cast_nonneg r
  have hg0 : (0 : ℚ) ≤ g := Nat.cast_nonneg g
  have hb0 : (0 : ℚ) ≤ b := Nat.cast_nonneg b
  refine ⟨⟨?_, ?_⟩, ⟨?_, ?_⟩, ⟨?_, ?_⟩, ?_, ?_, ?_⟩
  · unfold lumaExact; linarith
  · unfold lumaExact; linarith
  · unfold uExact; linarith
  · unfold uExact; linarith
  · unfold vExact; linarith
  · unfold vExact; linarith
  · have h := lumaExpr_near r g b hr hg hb
    rw [lumaExact_eq] at h ⊢
    rw [floor_div_10000]
    exact toUint8_near _ _ (by omega) (by omega) h
  · have h := uExpr_near r g b hr hg hb
    rw [uExact_eq] at h ⊢
    rw [floor_div_10000]
    exact toUint8_near _ _ (by omega) (by omega) h
  · have h := vExpr_near r g b hr hg hb
    rw [vExact_eq] at h ⊢
    rw [floor_div_10000]
    exact toUint8_near _ _ (by omega) (by omega) h

theorem sample_conversion_in_range_witness :
    (0 ≤ lumaExact 0 72 24 ∧ lumaExact 0 72 24 < 256) ∧
    (0 ≤ uExact 0 72 24 ∧ uExact 0 72 24 < 256) ∧
    (0 ≤ vExact 0 72 24 ∧ vExact 0 72 24 < 256) ∧
    ((toUint8 (lumaExpr 0 72 24) : ℤ) = trunc (lumaExpr 0 72 24) ∧
      toUint8 (lumaExpr 0 72 24) ≤ 255 ∧
      ⌊lumaExact 0 72 24⌋ - 1 ≤ (toUint8 (lumaExpr 0 72 24) : ℤ) ∧
      (toUint8 (lumaExpr 0 72 24) : ℤ) ≤ ⌊lumaExact 0 72 24⌋) ∧
    ((toUint8 (uExpr 0 72 24) : ℤ) = trunc (uExpr 0 72 24) ∧
      toUint8 (uExpr 0 72 24) ≤ 255 ∧
      ⌊uExact 0 72 24⌋ - 1 ≤ (toUint8 (uExpr 0 72 24) : ℤ) ∧
      (toUint8 (uExpr 0 72 24) : ℤ) ≤ ⌊uExact 0 72 24⌋) ∧
    ((toUint8 (vExpr 0 72 24) : ℤ) = trunc (vExpr 0 72 24) ∧
      toUint8 (vExpr 0 72 24) ≤ 255 ∧
      ⌊vExact 0 72 24⌋ - 1 ≤ (toUint8 (vExpr 0 72 24) : ℤ) ∧
      (toUint8 (vExpr 0 72 24) : ℤ) ≤ ⌊vExact 0 72 24⌋) :=
  sample_conversion_in_range 0 72 24 (by decide) (by decide) (by decide)

/-! ## The luma and chroma planes against the exact formulas -/

theorem byteAt_le (pb : GdkPixbuf) (hbytes : ∀ b ∈ pb.pixels, b ≤ 255) (i : ℕ) :
    byteAt pb i ≤ 255 := by
  rw [byteAt, List.getD_eq_getElem?_getD]
  cases hh : pb.pixels[i]? with
  | none => simp
  | some a => simpa using hbytes a (List.getElem?_mem hh)

/-- The luma sample is the floor of the exact luma or one below it. -/
theorem luma_sample_floor (r g b : ℕ) (hr : r ≤ 255) (hg : g ≤ 255) (hb : b ≤ 255) :
    ⌊lumaExact r g b⌋ - 1 ≤ (toUint8 (lumaExpr r g b) : ℤ) ∧
      (toUint8 (lumaExpr r g b) : ℤ) ≤ ⌊lumaExact r g b⌋ := by
  have h := lumaExpr_near r g b hr hg hb
  rw [lumaExact_eq] at h ⊢
  rw [floor_div_10000]
  exact (toUint8_near _ _ (by omega) (by omega) h).2.2

/-- The U sample is the floor of the exact U or one below it. -/
theorem u_sample_floor (r g b : ℕ) (hr : r ≤ 255) (hg : g ≤ 255) (hb : b ≤ 255) :
    ⌊uExact r g b⌋ - 1 ≤ (toUint8 (uExpr r g b) : ℤ) ∧
      (toUint8 (uExpr r g b) : ℤ) ≤ ⌊uExact r g b⌋ := by
  have h := uExpr_near r g b hr hg hb
  rw [uExact_eq] at h ⊢
  rw [floor_div_10000]
  exact (toUint8_near _ _ (by omega) (by omega) h).2.2

/-- The V sample is the floor of the exact V or one below it. -/
theorem v_sample_floor (r g b : ℕ) (hr : r ≤ 255) (hg : g ≤ 255) (hb : b ≤ 255) :
    ⌊vExact r g b⌋ - 1 ≤ (toUint8 (vExpr r g b) : ℤ) ∧
      (toUint8 (vExpr r g b) : ℤ) ≤ ⌊vExact r g b⌋ := by
  have h := vExpr_near r g b hr hg hb
  rw [vExact_eq] at h ⊢
  rw [floor_div_10000]
  exact (toUint8_near _ _ (by omega) (by omega) h).2.2

/-- The claim C1 as written fails on the 1x1 raster R=0, G=72, B=24, A=255 (4
channels, rowstride 4, 4 bytes) with a region of luma pitch 1 and pixel pitch 1:
`0.299 * 0 + 0.587 * 72 + 0.114 * 24` is exactly 45, and after `Render` the luma
byte of the pixel is 44 (the `double` sum of line 327 is `45 - 2 ^ -47`). -/
theorem luma_plane_byte_below_formula :
    pixel_0_72_24.has_alpha = true ∧ pixel_0_72_24.n_channels = 4 ∧
    4 * pixel_0_72_24.width ≤ pixel_0_72_24.rowstride ∧
    pixel_0_72_24.height * pixel_0_72_24.rowstride ≤ pixel_0_72_24.pixels.length ∧
    1 ≤ region1x1.Y_PIXEL_PITCH ∧
    pixel_0_72_24.width * region1x1.Y_PIXEL_PITCH ≤ region1x1.Y_PITCH ∧
    ∃ out, (Render (envOf1x1 pixel_0_72_24) blankSubpicture (dataOf pixel_0_72_24)).1.p_region
        = some out ∧
      pixel_0_72_24.pixels[0]? = some 0 ∧ pixel_0_72_24.pixels[1]? = some 72 ∧
      pixel_0_72_24.pixels[2]? = some 24 ∧
      lumaExact 0 72 24 = 45 ∧
      out.p_pixels PlaneId.Y (0 * region1x1.Y_PITCH + 0 * region1x1.Y_PIXEL_PITCH) = 44 :=
  ⟨rfl, rfl, by decide, by decide, by decide, by decide,
    _, Render_region (envOf1x1 pixel_0_72_24) blankSubpicture (dataOf pixel_0_72_24)
      pixel_0_72_24 region1x1 rfl rfl, by decide, by decide, by decide,
    by norm_num [lumaExact], by decide⟩

/-- C1, amended. Luma plane of `Render`: for a raster with an alpha channel, 4
channels, `rowstride ≥ 4 * width`, a buffer of at least `height * rowstride`
bytes (each in 0..255), and a region with `i_pitch ≥ width * pixel_pitch`,
`pixel_pitch ≥ 1`, the bytes R, G, B of every pixel `(x, y)` of the raster lie in
the buffer at `y * rowstride + x * channels + 0/1/2`, and after `Render` the
luma byte at `y * i_pitch + x * pixel_pitch` is the value line 327 computes for
`.299 * R + .587 * G + .114 * B` in `double`, truncated to 8 bits (no other store
of `Render` ends up there); that byte is the floor of the exact value
`0.299 R + 0.587 G + 0.114 B` or one less than it. -/
theorem Render_luma_plane (env : Env) (p_spu : subpicture_t) (p_string : subpicture_data_t)
    (pb : GdkPixbuf) (rg : subpicture_region_t)
    (hrend : p_string.p_rendition = Rendition.pixbuf pb)
    (hreg : env.pf_create_region pb.width pb.height = some rg)
    (halpha : pb.has_alpha = true) (hch : pb.n_channels = 4)
    (hrow : 4 * pb.width ≤ pb.rowstride)
    (hlen : pb.height * pb.rowstride ≤ pb.pixels.length)
    (hbytes : ∀ b ∈ pb.pixels, b ≤ 255)
    (hpp : 1 ≤ rg.Y_PIXEL_PITCH) (hpitch : pb.width * rg.Y_PIXEL_PITCH ≤ rg.Y_PITCH)
    (x y : ℕ) (hx : x < pb.width) (hy : y < pb.height) :
    ∃ out R G B, (Render env p_spu p_string).1.p_region = some out ∧
      pb.pixels[y * pb.rowstride + x * pb.n_channels + 0]? = some R ∧
      pb.pixels[y * pb.rowstride + x * pb.n_channels + 1]? = some G ∧
      pb.pixels[y * pb.rowstride + x * pb.n_channels + 2]? = some B ∧
      out.p_pixels PlaneId.Y (y * rg.Y_PITCH + x * rg.Y_PIXEL_PITCH) =
        toUint8 (lumaExpr R G B) ∧
      ⌊lumaExact R G B⌋ - 1 ≤
        (out.p_pixels PlaneId.Y (y * rg.Y_PITCH + x * rg.Y_PIXEL_PITCH) : ℤ) ∧
      (out.p_pixels PlaneId.Y (y * rg.Y_PITCH + x * rg.Y_PIXEL_PITCH) : ℤ) ≤
        ⌊lumaExact R G B⌋ := by
  have hY := renderStores_luma pb rg rg.p_pixels halpha hpp hpitch x y hx hy
  have hfl := luma_sample_floor (rgbAt pb x y).1 (rgbAt pb x y).2.1 (rgbAt pb x y).2.2
    (byteAt_le pb hbytes _) (byteAt_le pb hbytes _) (byteAt_le pb hbytes _)
  refine ⟨_, _, _, _, Render_region env p_spu p_string pb rg hrend hreg,
    byteAt_inbounds pb hch hrow hlen x y 0 hx hy (by omega),
    byteAt_inbounds pb hch hrow hlen x y 1 hx hy (by omega),
    byteAt_inbounds pb hch hrow hlen x y 2 hx hy (by omega), hY, ?_, ?_⟩
  · have := hfl.1
    rw [← hY] at this
    exact this
  · have := hfl.2
    rw [← hY] at this
    exact this

theorem Render_luma_plane_witness :
    ∃ out R G B, (Render (envOf redSquare) blankSubpicture (dataOf redSquare)).1.p_region
        = some out ∧
      redSquare.pixels[1 * redSquare.rowstride + 1 * redSquare.n_channels + 0]? = some R ∧
      redSquare.pixels[1 * redSquare.rowstride + 1 * redSquare.n_channels + 1]? = some G ∧
      redSquare.pixels[1 * redSquare.rowstride + 1 * redSquare.n_channels + 2]? = some B ∧
      out.p_pixels PlaneId.Y (1 * region2x2.Y_PITCH + 1 * region2x2.Y_PIXEL_PITCH) =
        toUint8 (lumaExpr R G B) ∧
      ⌊lumaExact R G B⌋ - 1 ≤
        (out.p_pixels PlaneId.Y (1 * region2x2.Y_PITCH + 1 * region2x2.Y_PIXEL_PITCH) : ℤ) ∧
      (out.p_pixels PlaneId.Y (1 * region2x2.Y_PITCH + 1 * region2x2.Y_PIXEL_PITCH) : ℤ) ≤
        ⌊lumaExact R G B⌋ :=
  Render_luma_plane (envOf redSquare) blankSubpicture (dataOf redSquare) redSquare region2x2
    rfl rfl rfl rfl (by decide) (by decide) (by decide) (by decide) (by decide) 1 1
    (by decide) (by decide)

/-- The claim C2 as written fails on the 1x1 raster R=0, G=164, B=164, A=255
with a region of chroma pitch 1 and pixel pitch 1:
`0.5 * 0 - 0.4187 * 164 - 0.0813 * 164 + 128` is exactly 46, and after `Render`
the V byte of the even pixel (0, 0) is 45 (the `double` value of line 337 is
just below 46). -/
theorem chroma_plane_byte_below_formula :
    pixel_0_164_164.has_alpha = true ∧
    (pixel_0_164_164.width + 1) / 2 * region1x1.U_PIXEL_PITCH ≤ region1x1.U_PITCH ∧
    ∃ out, (Render (envOf1x1 pixel_0_164_164) blankSubpicture
        (dataOf pixel_0_164_164)).1.p_region = some out ∧
      byteAt pixel_0_164_164 0 = 0 ∧ byteAt pixel_0_164_164 1 = 164 ∧
      byteAt pixel_0_164_164 2 = 164 ∧
      vExact 0 164 164 = 46 ∧
      out.p_pixels PlaneId.V
        ((0 / 2) * region1x1.U_PITCH + (0 / 2) * region1x1.U_PIXEL_PITCH) = 45 :=
  ⟨rfl, by decide,
    _, Render_region (envOf1x1 pixel_0_164_164) blankSubpicture (dataOf pixel_0_164_164)
      pixel_0_164_164 region1x1 rfl rfl, by decide, by decide, by decide,
    by norm_num [vExact], by decide⟩

/-- C2, amended. Chroma planes of `Render`: for a raster with an alpha channel
whose bytes are in 0..255 and a region with `pixel_pitch ≥ 1` and
`i_u_pitch ≥ ceil(width / 2) * pixel_pitch`, after `Render` the U byte at
`(y/2) * i_u_pitch + (x/2) * pixel_pitch` of every pixel `(x, y)` of the raster
with `x` and `y` even is the value line 336 computes for
`-.1687 * R - .3313 * G + .5 * B + 128` in `double`, truncated to 8 bits, and the
V byte there is the value line 337 computes for
`.5 * R - .4187 * G - .0813 * B + 128`, truncated to 8 bits, R, G, B being the
bytes `pixels_in[y * rowstride + x * channels + 0/1/2]` of pixel `(x, y)`; each
of the two bytes is the floor of the exact value of its formula or one less
than it; a pixel with `x` or `y` odd stores nothing in U or V; two distinct
even pixels have distinct chroma offsets; for a raster with 4 channels,
`rowstride ≥ 4 * width` and a buffer of at least `height * rowstride` bytes the
bytes of every pixel lie inside the buffer. -/
theorem Render_chroma_planes (env : Env) (p_spu : subpicture_t)
    (p_string : subpicture_data_t) (pb : GdkPixbuf) (rg : subpicture_region_t)
    (hrend : p_string.p_rendition = Rendition.pixbuf pb)
    (hreg : env.pf_create_region pb.width pb.height = some rg)
    (halpha : pb.has_alpha = true)
    (hbytes : ∀ b ∈ pb.pixels, b ≤ 255)
    (hpp : 1 ≤ rg.U_PIXEL_PITCH)
    (hpitch : (pb.width + 1) / 2 * rg.U_PIXEL_PITCH ≤ rg.U_PITCH) :
    ∃ out, (Render env p_spu p_string).1.p_region = some out ∧
      (∀ x y, x < pb.width → y < pb.height → x % 2 = 0 → y % 2 = 0 →
        out.p_pixels PlaneId.U ((y / 2) * rg.U_PITCH + (x / 2) * rg.U_PIXEL_PITCH) =
          toUint8 (uExpr (byteAt pb (y * pb.rowstride + x * pb.n_channels))
            (byteAt pb (y * pb.rowstride + x * pb.n_channels + 1))
            (byteAt pb (y * pb.rowstride + x * pb.n_channels + 2))) ∧
        out.p_pixels PlaneId.V ((y / 2) * rg.U_PITCH + (x / 2) * rg.U_PIXEL_PITCH) =
          toUint8 (vExpr (byteAt pb (y * pb.rowstride + x * pb.n_channels))
            (byteAt pb (y * pb.rowstride + x * pb.n_channels + 1))
            (byteAt pb (y * pb.rowstride + x * pb.n_channels + 2))) ∧
        ⌊uExact (byteAt pb (y * pb.rowstride + x * pb.n_channels))
            (byteAt pb (y * pb.rowstride + x * pb.n_channels + 1))
            (byteAt pb (y * pb.rowstride + x * pb.n_channels + 2))⌋ - 1 ≤
          (out.p_pixels PlaneId.U
            ((y / 2) * rg.U_PITCH + (x / 2) * rg.U_PIXEL_PITCH) : ℤ) ∧
        (out.p_pixels PlaneId.U
            ((y / 2) * rg.U_PITCH + (x / 2) * rg.U_PIXEL_PITCH) : ℤ) ≤
          ⌊uExact (byteAt pb (y * pb.rowstride + x * pb.n_channels))
            (byteAt pb (y * pb.rowstride + x * pb.n_channels + 1))
            (byteAt pb (y * pb.rowstride + x * pb.n_channels + 2))⌋ ∧
        ⌊vExact (byteAt pb (y * pb.rowstride + x * pb.n_channels))
            (byteAt pb (y * pb.rowstride + x * pb.n_channels + 1))
            (byteAt pb (y * pb.rowstride + x * pb.n_channels + 2))⌋ - 1 ≤
          (out.p_pixels PlaneId.V
            ((y / 2) * rg.U_PITCH + (x / 2) * rg.U_PIXEL_PITCH) : ℤ) ∧
        (out.p_pixels PlaneId.V
            ((y / 2) * rg.U_PITCH + (x / 2) * rg.U_PIXEL_PITCH) : ℤ) ≤
          ⌊vExact (byteAt pb (y * pb.rowstride + x * pb.n_channels))
            (byteAt pb (y * pb.rowstride + x * pb.n_channels + 1))
            (byteAt pb (y * pb.rowstride + x * pb.n_channels + 2))⌋) ∧
      (∀ x y, ¬ (x % 2 = 0 ∧ y % 2 = 0) → ∀ s ∈ pixelStores pb rg x y,
        s.plane ≠ PlaneId.U ∧ s.plane ≠ PlaneId.V) ∧
      (∀ x y x' y', x < pb.width → x' < pb.width →
        x % 2 = 0 → y % 2 = 0 → x' % 2 = 0 → y' % 2 = 0 →
        (y / 2) * rg.U_PITCH + (x / 2) * rg.U_PIXEL_PITCH =
          (y' / 2) * rg.U_PITCH + (x' / 2) * rg.U_PIXEL_PITCH → x = x' ∧ y = y') ∧
      (pb.n_channels = 4 → 4 * pb.width ≤ pb.rowstride →
        pb.height * pb.rowstride ≤ pb.pixels.length →
        ∀ x y c, x < pb.width → y < pb.height → c < 4 →
          pb.pixels[y * pb.rowstride + x * pb.n_channels + c]? =
            some (byteAt pb (y * pb.rowstride + x * pb.n_channels + c))) := by
  refine ⟨_, Render_region env p_spu p_string pb rg hrend hreg, ?_, ?_, ?_, ?_⟩
  rotate_left 3
  · intro hch hrow hlen x y c hx hy hc
    exact byteAt_inbounds pb hch hrow hlen x y c hx hy hc
  · intro x y hx hy ex ey
    have h := renderStores_chroma pb rg rg.p_pixels halpha hpp hpitch x y hx hy ex ey
    simp only [UV_INDEX_OUT, Nat.shiftRight_eq_div_pow, pow_one, rgbAt, INDEX_IN] at h
    have hu := u_sample_floor (byteAt pb (y * pb.rowstride + x * pb.n_channels))
      (byteAt pb (y * pb.rowstride + x * pb.n_channels + 1))
      (byteAt pb (y * pb.rowstride + x * pb.n_channels + 2))
      (byteAt_le pb hbytes _) (byteAt_le pb hbytes _) (byteAt_le pb hbytes _)
    have hv := v_sample_floor (byteAt pb (y * pb.rowstride + x * pb.n_channels))
      (byteAt pb (y * pb.rowstride + x * pb.n_channels + 1))
      (byteAt pb (y * pb.rowstride + x * pb.n_channels + 2))
      (byteAt_le pb hbytes _) (byteAt_le pb hbytes _) (byteAt_le pb hbytes _)
    rw [← h.1] at hu
    rw [← h.2] at hv
    exact ⟨h.1, h.2, hu.1, hu.2, hv.1, hv.2⟩
  · intro x y hodd s hs
    exact pixelStores_odd pb rg x y hodd s hs
  · intro x y x' y' hx hx' ex ey ex' ey' h
    apply uv_index_out_inj rg.U_PITCH rg.U_PIXEL_PITCH pb.width x y x' y' hpp hpitch
      hx hx' ex ey ex' ey'
    simpa only [UV_INDEX_OUT, Nat.shiftRight_eq_div_pow, pow_one] using h

theorem Render_chroma_planes_witness :
    ∃ out, (Render (envOf redSquare) blankSubpicture (dataOf redSquare)).1.p_region
        = some out ∧
      out.p_pixels PlaneId.U 0 = 84 ∧ out.p_pixels PlaneId.V 0 = 255 ∧
      ⌊uExact 255 0 0⌋ - 1 ≤ (out.p_pixels PlaneId.U 0 : ℤ) ∧
      (out.p_pixels PlaneId.U 0 : ℤ) ≤ ⌊uExact 255 0 0⌋ ∧
      ⌊vExact 255 0 0⌋ - 1 ≤ (out.p_pixels PlaneId.V 0 : ℤ) ∧
      (out.p_pixels PlaneId.V 0 : ℤ) ≤ ⌊vExact 255 0 0⌋ := by
  obtain ⟨out, hout, hval, _, _, _⟩ :=
    Render_chroma_planes (envOf redSquare) blankSubpicture (dataOf redSquare) redSquare
      region2x2 rfl rfl rfl (by decide) (by decide) (by decide)
  exact ⟨out, hout, hval 0 0 (by decide) (by decide) rfl rfl⟩

/-! ## Strings -/

theorem strstr_isSome_iff (hay needle : List Char) :
    (strstr hay needle).isSome ↔ needle <:+: hay := by
  induction hay with
  | nil =>
    unfold strstr
    by_cases h : needle = []
    · simp [h]
    · simp [h]
  | cons c hay ih =>
    unfold strstr
    rw [List.infix_cons_iff]
    by_cases hp : needle.isPrefixOf (c :: hay) = true
    · simp only [hp, if_true, Option.isSome_some, true_iff]
      exact Or.inl (List.isPrefixOf_iff_prefix.1 hp)
    · simp only [hp, Bool.false_eq_true, if_false, ih]
      constructor
      · exact Or.inr
      · rintro (h | h)
        · exact absurd (List.isPrefixOf_iff_prefix.2 h) hp
        · exact h

theorem vformat_cons (c : Char) (rest : List Char) (arg : Option (List Char))
    (hc : c ≠ '%') : vformat (c :: rest) arg = (vformat rest arg).map fun t => c :: t := by
  rw [vformat]
  all_goals simp_all

theorem vformat_literal (l : List Char) (arg : Option (List Char)) (h : '%' ∉ l) :
    vformat l arg = some l := by
  induction l with
  | nil => simp [vformat]
  | cons c l ih =>
    have hc : c ≠ '%' := fun e => h (e ▸ List.mem_cons_self _ _)
    rw [vformat_cons c l arg hc, ih (fun hm => h (List.mem_cons_of_mem _ hm))]
    rfl

theorem vformat_single (pre post arg : List Char) (hpre : '%' ∉ pre) (hpost : '%' ∉ post) :
    vformat (pre ++ "%s".toList ++ post) (some arg) = some (pre ++ arg ++ post) := by
  induction pre with
  | nil =>
    show vformat ('%' :: 's' :: post) (some arg) = some ([] ++ arg ++ post)
    rw [vformat, vformat_literal post none hpost]
    rfl
  | cons c pre ih =>
    have hc : c ≠ '%' := fun e => hpre (e ▸ List.mem_cons_self _ _)
    have := ih (fun hm => hpre (List.mem_cons_of_mem _ hm))
    simp only [List.cons_append] at this ⊢
    rw [vformat_cons c _ _ hc, this]
    rfl

/-- The bound `strlen( psz_string ) + strlen( psz_template ) + 42` does not cut
the expansion of a template with one `%s`. -/
theorem snprintf_single (pre post arg : List Char) (hpre : '%' ∉ pre) (hpost : '%' ∉ post) :
    snprintf (arg.length + (pre ++ "%s".toList ++ post).length + 42)
      (pre ++ "%s".toList ++ post) arg = some (pre ++ arg ++ post) := by
  unfold snprintf
  rw [vformat_single pre post arg hpre hpost]
  simp only [Option.map_some']
  rw [List.take_of_length_le]
  simp only [List.length_append]
  omega

set_option maxRecDepth 100000 in
theorem defaultTemplate_singleSlot : SingleSlot defaultTemplate defaultPre defaultPost := by
  refine ⟨by decide, by decide, by decide⟩

/-! ## RenderText -/

theorem rsvgInputs_append (l₁ l₂ : List Event) :
    rsvgInputs (l₁ ++ l₂) = rsvgInputs l₁ ++ rsvgInputs l₂ := by
  induction l₁ with
  | nil => rfl
  | cons e l ih => cases e <;> simp [rsvgInputs, ih]

theorem uninit_cases (env : Env) :
    env.uninit = Rendition.null ∨ env.uninit = Rendition.wild := by
  unfold Env.uninit
  cases env.uninit_is_null <;> simp

/-- Every text `renderBuilt` hands to librsvg is the text it was given, and it
hands it over at least once. -/
theorem renderBuilt_inputs (env : Env) (p_sys : filter_sys_t) (p_subpic : subpicture_t)
    (text : List Char) :
    rsvgInputs (renderBuilt env p_sys p_subpic text).log ≠ [] ∧
      ∀ t ∈ rsvgInputs (renderBuilt env p_sys p_subpic text).log, t = text := by
  unfold renderBuilt Render svg_RenderPicture
  by_cases he : env.rsvg_write_error text = true
  · rcases uninit_cases env with hu | hu <;>
      simp [he, hu, rsvgInputs_append, rsvgInputs]
  · cases hp : env.rsvg_pixbuf text p_sys.i_width p_sys.i_height with
    | none => simp [he, hp, rsvgInputs_append, rsvgInputs]
    | some pb =>
      cases hc : env.pf_create_region pb.width pb.height <;>
        simp [he, hp, hc, rsvgInputs_append, rsvgInputs]

/-- When librsvg rejects the text or yields no pixbuf, `renderBuilt` still goes
on to return the subpicture, and `Render` asks for the width and height of a
pointer that is no pixbuf: the run is undefined. -/
theorem renderBuilt_failure (env : Env) (p_sys : filter_sys_t) (p_subpic : subpicture_t)
    (text : List Char)
    (hfail : env.rsvg_write_error text = true ∨
      env.rsvg_pixbuf text p_sys.i_width p_sys.i_height = none) :
    (renderBuilt env p_sys p_subpic text).ret.isSome = true ∧
    ∃ p, (p = Rendition.null ∨ p = Rendition.wild) ∧
      Event.gdk_pixbuf_get_width p ∈ (renderBuilt env p_sys p_subpic text).log ∧
      Event.gdk_pixbuf_get_height p ∈ (renderBuilt env p_sys p_subpic text).log ∧
      (renderBuilt env p_sys p_subpic text).undefined_read = true := by
  refine ⟨rfl, ?_⟩
  unfold renderBuilt Render svg_RenderPicture
  by_cases he : env.rsvg_write_error text = true
  · rcases uninit_cases env with hu | hu
    · exact ⟨Rendition.null, Or.inl rfl, by simp [he, hu]⟩
    · exact ⟨Rendition.wild, Or.inr rfl, by simp [he, hu]⟩
  · have hp : env.rsvg_pixbuf text p_sys.i_width p_sys.i_height = none := by
      rcases hfail with h | h
      · exact absurd h he
      · exact h
    exact ⟨Rendition.null, Or.inl rfl, by simp [he, hp]⟩

/-- With an SVG payload and successful allocations `RenderText` renders the
payload itself, whatever the template. -/
theorem RenderText_built_svg (env : Env) (p_sys : filter_sys_t) (blk : block_t)
    (buf : List Char) (spu : subpicture_t)
    (hbuf : blk.p_buffer = some buf) (hne : cstring buf ≠ [])
    (hspu : env.pf_sub_buffer_new = some spu) (hm1 : env.malloc_data = true)
    (hm2 : env.strdup_text = true)
    (hs : (strstr (cstring buf) "<svg".toList).isSome = true) :
    ∃ p_subpic, RenderText env p_sys (some blk) =
      some (renderBuilt env p_sys p_subpic (cstring buf)) := by
  unfold RenderText
  simp only [hbuf, hne, if_false, hspu, hm1, hm2, Bool.not_true, Bool.false_eq_true,
    hs, if_true]
  exact ⟨_, rfl⟩

/-- With a text payload, successful allocations and a template with one `%s`,
`RenderText` renders the template with the payload in place of `%s`. -/
theorem RenderText_built_text (env : Env) (p_sys : filter_sys_t) (blk : block_t)
    (buf : List Char) (spu : subpicture_t) (pre post : List Char)
    (hbuf : blk.p_buffer = some buf) (hne : cstring buf ≠ [])
    (hspu : env.pf_sub_buffer_new = some spu) (hm1 : env.malloc_data = true)
    (hm3 : env.malloc_text = true)
    (hs : ¬ (strstr (cstring buf) "<svg".toList).isSome = true)
    (htmpl : SingleSlot p_sys.psz_template pre post) :
    ∃ p_subpic, RenderText env p_sys (some blk) =
      some (renderBuilt env p_sys p_subpic (pre ++ cstring buf ++ post)) := by
  obtain ⟨ht, hpre, hpost⟩ := htmpl
  unfold RenderText
  simp only [hbuf, hne, if_false, hspu, hm1, hm3, Bool.not_true, Bool.false_eq_true, hs]
  rw [ht, snprintf_single pre post (cstring buf) hpre hpost]
  exact ⟨_, rfl⟩

/-- C4. SVG source built by `RenderText` (with a non-empty payload and
successful allocations): when the payload contains `<svg`, every text handed to
the rasterizer is the payload itself, for every template; when it does not and
the template is `pre ++ "%s" ++ post` with no other `%`, every text handed to
the rasterizer is `pre ++ payload ++ post` in full, the bound of `snprintf`
cutting nothing; the default template is of that form. -/
theorem RenderText_svg_source (env : Env) (p_sys : filter_sys_t) (blk : block_t)
    (buf : List Char) (spu : subpicture_t)
    (hbuf : blk.p_buffer = some buf) (hne : cstring buf ≠ [])
    (hspu : env.pf_sub_buffer_new = some spu) (hm1 : env.malloc_data = true)
    (hm2 : env.strdup_text = true) (hm3 : env.malloc_text = true) :
    ("<svg".toList <:+: cstring buf →
      ∃ res, RenderText env p_sys (some blk) = some res ∧ rsvgInputs res.log ≠ [] ∧
        ∀ t ∈ rsvgInputs res.log, t = cstring buf) ∧
    (¬ "<svg".toList <:+: cstring buf → ∀ pre post,
      p_sys.psz_template = pre ++ "%s".toList ++ post → '%' ∉ pre → '%' ∉ post →
      ∃ res, RenderText env p_sys (some blk) = some res ∧ rsvgInputs res.log ≠ [] ∧
        ∀ t ∈ rsvgInputs res.log, t = pre ++ cstring buf ++ post) ∧
    (defaultTemplate = defaultPre ++ "%s".toList ++ defaultPost ∧
      '%' ∉ defaultPre ∧ '%' ∉ defaultPost) := by
  refine ⟨?_, ?_, defaultTemplate_singleSlot⟩
  · intro hsvg
    have hs := (strstr_isSome_iff (cstring buf) "<svg".toList).2 hsvg
    obtain ⟨p_subpic, h⟩ := RenderText_built_svg env p_sys blk buf spu hbuf hne hspu hm1 hm2 hs
    exact ⟨_, h, renderBuilt_inputs env p_sys p_subpic (cstring buf)⟩
  · intro hsvg pre post ht hpre hpost
    have hs : ¬ (strstr (cstring buf) "<svg".toList).isSome = true :=
      fun h => hsvg ((strstr_isSome_iff (cstring buf) "<svg".toList).1 h)
    obtain ⟨p_subpic, h⟩ := RenderText_built_text env p_sys blk buf spu pre post hbuf hne
      hspu hm1 hm3 hs ⟨ht, hpre, hpost⟩
    exact ⟨_, h, renderBuilt_inputs env p_sys p_subpic (pre ++ cstring buf ++ post)⟩

set_option maxRecDepth 100000 in
theorem RenderText_svg_source_witness :
    (∃ res, RenderText (envOf redSquare) sysDefault (some blockSvg) = some res ∧
      rsvgInputs res.log ≠ [] ∧
      ∀ t ∈ rsvgInputs res.log, t = "<svg version='1'></svg>".toList) ∧
    (∃ res, RenderText (envOf redSquare) sysDefault (some blockHello) = some res ∧
      rsvgInputs res.log ≠ [] ∧
      ∀ t ∈ rsvgInputs res.log, t = defaultPre ++ "Hello".toList ++ defaultPost) :=
  ⟨(RenderText_svg_source (envOf redSquare) sysDefault blockSvg _ blankSubpicture
      rfl (by decide) rfl rfl rfl rfl).1 (by decide),
   (RenderText_svg_source (envOf redSquare) sysDefault blockHello _ blankSubpicture
      rfl (by decide) rfl rfl rfl rfl).2.1 (by decide) defaultPre defaultPost
      (by decide) (by decide) (by decide)⟩

/-- C6, as the code behaves. When the allocations succeed and librsvg rejects
the SVG source of a non-empty block (`rsvg_handle_write` sets `error`) or yields
no pixbuf, `RenderText` does not drop the block: it goes on to return the
subpicture, and `Render` asks gdk-pixbuf for the width and the height of a
`p_rendition` that is `NULL` or was never written, which leaves the run
undefined. -/
theorem RenderText_rasterizer_failure (env : Env) (p_sys : filter_sys_t) (blk : block_t)
    (buf : List Char) (spu : subpicture_t) (pre post : List Char)
    (hbuf : blk.p_buffer = some buf) (hne : cstring buf ≠ [])
    (hspu : env.pf_sub_buffer_new = some spu) (hm1 : env.malloc_data = true)
    (hm2 : env.strdup_text = true) (hm3 : env.malloc_text = true)
    (htmpl : SingleSlot p_sys.psz_template pre post)
    (hfail : ∀ t, env.rsvg_write_error t = true ∨
      env.rsvg_pixbuf t p_sys.i_width p_sys.i_height = none) :
    ∃ res, RenderText env p_sys (some blk) = some res ∧ res.ret.isSome = true ∧
      ∃ p, (p = Rendition.null ∨ p = Rendition.wild) ∧
        Event.gdk_pixbuf_get_width p ∈ res.log ∧
        Event.gdk_pixbuf_get_height p ∈ res.log ∧
        res.undefined_read = true := by
  by_cases hs : (strstr (cstring buf) "<svg".toList).isSome = true
  · obtain ⟨p_subpic, h⟩ :=
      RenderText_built_svg env p_sys blk buf spu hbuf hne hspu hm1 hm2 hs
    exact ⟨_, h, renderBuilt_failure env p_sys p_subpic _ (hfail _)⟩
  · obtain ⟨p_subpic, h⟩ := RenderText_built_text env p_sys blk buf spu pre post
      hbuf hne hspu hm1 hm3 hs htmpl
    exact ⟨_, h, renderBuilt_failure env p_sys p_subpic _ (hfail _)⟩

set_option maxRecDepth 100000 in
theorem RenderText_rasterizer_failure_witness :
    (∃ res, RenderText envWriteError sysDefault (some blockSvg) = some res ∧
      res.ret.isSome = true ∧
      ∃ p, (p = Rendition.null ∨ p = Rendition.wild) ∧
        Event.gdk_pixbuf_get_width p ∈ res.log ∧
        Event.gdk_pixbuf_get_height p ∈ res.log ∧
        res.undefined_read = true) ∧
    (∃ res, RenderText envNoPixbuf sysDefault (some blockHello) = some res ∧
      res.ret.isSome = true ∧
      ∃ p, (p = Rendition.null ∨ p = Rendition.wild) ∧
        Event.gdk_pixbuf_get_width p ∈ res.log ∧
        Event.gdk_pixbuf_get_height p ∈ res.log ∧
        res.undefined_read = true) :=
  ⟨RenderText_rasterizer_failure envWriteError sysDefault blockSvg _ blankSubpicture
      defaultPre defaultPost rfl (by decide) rfl rfl rfl rfl defaultTemplate_singleSlot
      (fun _ => Or.inl rfl),
   RenderText_rasterizer_failure envNoPixbuf sysDefault blockHello _ blankSubpicture
      defaultPre defaultPost rfl (by decide) rfl rfl rfl rfl defaultTemplate_singleSlot
      (fun _ => Or.inr rfl)⟩

end Svg
